import Mathlib

/-!
# mstream: a type-directed binary codec

A shallow embedding of `encode.go` and `decode.go` (package `mstream`).

* A Go value handed to the codec as `interface{}` is a pair of its dynamic type
  (`Ty`) and its contents (`Ty.denote`).
* An `io.Writer` is an in-memory append-only buffer (the `bytes.Buffer` of the
  tests): an encoding call is described by the bytes it appended and the error
  it returned.
* An `io.Reader` is an in-memory byte stream; a decoding call is described by
  the error it returned, the contents of the target variable afterwards and
  the bytes left unread.
* `canonicalizeWellKnown`, `wellKnownEncoders` and `wellKnownDecoders` are not
  part of the sources at hand; they are fields of `Env`, as are the `Encode`
  and `Decode` methods that user types declare.
-/

namespace Mstream

/-- One octet of a stream, as a natural number below 256. -/
abbrev Byte := Nat

/-- Go `error` values that occur. `Panic` stands for a run-time panic raised by
the `reflect` package: the call does not return normally. -/
inductive Error where
  | EOF
  | ErrUnexpectedEOF
  | New (msg : String)
  | Panic (msg : String)
  deriving DecidableEq, Repr

/-- Result of `reflect.Type.Kind`. -/
inductive Kind where
  | Bool | Uint8 | Uint16 | Uint32 | Uint64 | String | Array | Slice | Ptr | Struct
  deriving DecidableEq, Repr

/-- Go types. `name = none` is the predeclared type or the unnamed type literal
(`bool`, `[]byte`, `[4]uint16`); `name = some n` is a defined type
`type n <underlying>`, which has the same kind and contents but is a different
type. A struct type is known by its printed name only. -/
inductive Ty where
  | bool (name : Option String)
  | uint8 (name : Option String)
  | uint16 (name : Option String)
  | uint32 (name : Option String)
  | uint64 (name : Option String)
  | string (name : Option String)
  | array (name : Option String) (len : Nat) (elem : Ty)
  | slice (name : Option String) (elem : Ty)
  | ptr (elem : Ty)
  | struct (name : String)
  deriving DecidableEq, Repr

namespace Ty

/-- Contents of a value of each type. Integers are naturals (in range when the
value is well formed), strings are their bytes, arrays and slices are the lists
of their elements (a nil slice is the empty list), a pointer is modelled by the
variable it points to (a nil pointer is not represented), and the fields of a
struct are abstracted to a number. -/
@[reducible] def denote : Ty → Type
  | .bool _ => Bool
  | .uint8 _ => Nat
  | .uint16 _ => Nat
  | .uint32 _ => Nat
  | .uint64 _ => Nat
  | .string _ => List Byte
  | .array _ _ e => List e.denote
  | .slice _ e => List e.denote
  | .ptr u => u.denote
  | .struct _ => Nat

/-- Model of `reflect.Type.Kind`. -/
def Kind : Ty → Mstream.Kind
  | .bool _ => .Bool
  | .uint8 _ => .Uint8
  | .uint16 _ => .Uint16
  | .uint32 _ => .Uint32
  | .uint64 _ => .Uint64
  | .string _ => .String
  | .array _ _ _ => .Array
  | .slice _ _ => .Slice
  | .ptr _ => .Ptr
  | .struct _ => .Struct

/-- Model of `reflect.Type.Elem` on arrays, slices and pointers (the type itself
elsewhere, where Go would panic and the codec never asks). -/
def Elem : Ty → Ty
  | .array _ _ e => e
  | .slice _ e => e
  | .ptr u => u
  | t => t

/-- Model of `reflect.Type.String`, the printed name of a type. -/
def typeName : Ty → String
  | .bool n => n.getD "bool"
  | .uint8 n => n.getD "uint8"
  | .uint16 n => n.getD "uint16"
  | .uint32 n => n.getD "uint32"
  | .uint64 n => n.getD "uint64"
  | .string n => n.getD "string"
  | .array n l e => n.getD ("[" ++ toString l ++ "]" ++ e.typeName)
  | .slice n e => n.getD ("[]" ++ e.typeName)
  | .ptr u => "*" ++ u.typeName
  | .struct n => n

/-- Model of `reflect.Zero`. -/
def zero : (t : Ty) → t.denote
  | .bool _ => false
  | .uint8 _ => (0 : Nat)
  | .uint16 _ => (0 : Nat)
  | .uint32 _ => (0 : Nat)
  | .uint64 _ => (0 : Nat)
  | .string _ => ([] : List Byte)
  | .array _ l e => List.replicate l e.zero
  | .slice _ _ => []
  | .ptr u => u.zero
  | .struct _ => (0 : Nat)

/-- Whether the type is a defined (named) type or a struct type. -/
def isDefined : Ty → Bool
  | .bool n | .uint8 n | .uint16 n | .uint32 n | .uint64 n | .string n => n.isSome
  | .array n _ _ => n.isSome
  | .slice n _ => n.isSome
  | .ptr _ => false
  | .struct _ => true

/-- Go method sets: only defined types, struct types and pointers to them can
have methods; predeclared types and unnamed array, slice and pointer types have
an empty method set. -/
def mayHaveMethods : Ty → Bool
  | .ptr u => u.isDefined
  | t => t.isDefined

end Ty

/-- What an encoding call did: the bytes it appended to the writer, and the
error it returned (`none` for `nil`). -/
structure EncOut where
  written : List Byte
  err : Option Error
  deriving DecidableEq, Repr

/-- An `io.Reader`: the bytes not yet read. -/
abbrev Reader := List Byte

/-- What a decoding call did: the error it returned, the contents of the
variable behind the target pointer afterwards, and the bytes left unread. -/
structure DecOut (α : Type) where
  err : Option Error
  slot : α
  rest : Reader
  deriving DecidableEq, Repr

/-- The parts of the program that are not in `encode.go` and `decode.go`.
`Encode t` is the `Encode` method in the method set of `t`, if `t` declares
one; `Decode t` likewise for `Decode`. The well-known registry is two maps
keyed by canonical type whose codecs take the item as `interface{}`. -/
structure Env where
  Encode : (t : Ty) → Option (t.denote → EncOut)
  Decode : (t : Ty) → Option (t.denote → Reader → DecOut t.denote)
  canonicalizeWellKnown : Ty → Ty
  wellKnownEncoders : Ty → Option ((t : Ty) → t.denote → EncOut)
  wellKnownDecoders : Ty → Option ((t : Ty) → t.denote → Reader → DecOut t.denote)

/-- The type assertion `item.(Encoder)` on an item of dynamic type `t`. -/
def Env.Encoder (env : Env) (t : Ty) : Option (t.denote → EncOut) :=
  if t.mayHaveMethods then env.Encode t else none

/-- The type assertion `item.(Decoder)` on an item of dynamic type `t`. -/
def Env.Decoder (env : Env) (t : Ty) : Option (t.denote → Reader → DecOut t.denote) :=
  if t.mayHaveMethods then env.Decode t else none

/-- The constant `math.MaxUint32`. -/
def MaxUint32 : Nat := 4294967295

def trueWire : List Byte := [0x01]

def falseWire : List Byte := [0x00]

/-- Model of `w.Write(p)` on an in-memory buffer: appends `p`, never fails. -/
def Write (p : List Byte) : EncOut := ⟨p, none⟩

/-- Sequencing `if err := first; err != nil { return err }; next`. -/
def EncOut.andThen (first next : EncOut) : EncOut :=
  match first.err with
  | some e => ⟨first.written, some e⟩
  | none => ⟨first.written ++ next.written, next.err⟩

/-- Model of `binary.BigEndian.PutUint16` into a fresh 2-byte buffer. -/
def PutUint16 (v : Nat) : List Byte :=
  [v / 2 ^ 8 % 256, v % 256]

/-- Model of `binary.BigEndian.PutUint32` into a fresh 4-byte buffer. -/
def PutUint32 (v : Nat) : List Byte :=
  [v / 2 ^ 24 % 256, v / 2 ^ 16 % 256, v / 2 ^ 8 % 256, v % 256]

/-- Model of `binary.BigEndian.PutUint64` into a fresh 8-byte buffer. -/
def PutUint64 (v : Nat) : List Byte :=
  [v / 2 ^ 56 % 256, v / 2 ^ 48 % 256, v / 2 ^ 40 % 256, v / 2 ^ 32 % 256,
   v / 2 ^ 24 % 256, v / 2 ^ 16 % 256, v / 2 ^ 8 % 256, v % 256]

/-- Model of `binary.BigEndian.Uint16`, `Uint32` and `Uint64`: the big-endian
value of a buffer, reduced to the width of the result type. -/
def Uint16 (b : List Byte) : Nat :=
  (b.getD 0 0 * 2 ^ 8 + b.getD 1 0) % 2 ^ 16

def Uint32 (b : List Byte) : Nat :=
  (b.getD 0 0 * 2 ^ 24 + b.getD 1 0 * 2 ^ 16 + b.getD 2 0 * 2 ^ 8 + b.getD 3 0) % 2 ^ 32

def Uint64 (b : List Byte) : Nat :=
  (b.getD 0 0 * 2 ^ 56 + b.getD 1 0 * 2 ^ 48 + b.getD 2 0 * 2 ^ 40 + b.getD 3 0 * 2 ^ 32
    + b.getD 4 0 * 2 ^ 24 + b.getD 5 0 * 2 ^ 16 + b.getD 6 0 * 2 ^ 8 + b.getD 7 0) % 2 ^ 64

/-- Model of `io.ReadFull(r, buf)` with `len(buf) = n` on an in-memory reader:
the buffer read (or the error) and the bytes left. A short stream is drained;
the error is `EOF` when nothing at all was read and `ErrUnexpectedEOF`
otherwise. Reading zero bytes always succeeds. -/
def ReadFull (r : Reader) (n : Nat) : Except Error (List Byte) × Reader :=
  if n ≤ r.length then (.ok (r.take n), r.drop n)
  else if r.length = 0 then (.error .EOF, [])
  else (.error .ErrUnexpectedEOF, [])

/-- The verb `%x` applied to a byte: lower-case hexadecimal, no padding. -/
def hex (b : Byte) : String := String.mk (Nat.toDigits 16 b)

/-- Body of `case []byte` in `EncodeField`. -/
def encodeBytes (it : List Byte) : EncOut :=
  if it.length > MaxUint32 then
    ⟨[], some (.New "variable-length field too large to encode")⟩
  else
    (Write (PutUint32 it.length)).andThen (Write it)

/-- The loop `for i := 0; i < val.Len(); i++ { if err := EncodeField(w, val.Index(i)); err != nil { return err } }; return nil`. -/
def encodeElems {α : Type} (encodeField : α → EncOut) : List α → EncOut
  | [] => ⟨[], none⟩
  | x :: xs => (encodeField x).andThen (encodeElems encodeField xs)

/-- Model of `encodeReflect`. The Go function calls `EncodeField` on the
elements of an array or slice; here that call is the argument `encodeField`,
which `EncodeField` instantiates with itself at the element type. -/
def encodeReflect (env : Env) :
    (t : Ty) → (encodeField : t.Elem.denote → EncOut) → t.denote → EncOut
  | t, encodeField, item =>
    match env.wellKnownEncoders (env.canonicalizeWellKnown t) with
    | some enc => enc t item
    | none =>
      match t, encodeField, item with
      | .array _ _ (.uint8 _), _, item => Write item
      | .array _ _ _, encodeField, item => encodeElems encodeField item
      | .slice _ _, encodeField, item =>
        if item.length > MaxUint32 then
          ⟨[], some (.New "number of array elements too large to encode")⟩
        else
          (Write (PutUint32 item.length)).andThen (encodeElems encodeField item)
      | t, _, _ => ⟨[], some (.New ("type " ++ t.typeName ++ " cannot be encoded"))⟩

/-- Model of `EncodeField(w, item)` for an item of dynamic type `t`. -/
def EncodeField (env : Env) : (t : Ty) → t.denote → EncOut
  | t, item =>
    match env.Encoder t with
    | some enc => enc item
    | none =>
      match t, item with
      | .bool none, it => Write (if it then trueWire else falseWire)
      | .uint8 none, it => Write [it]
      | .uint16 none, it => Write (PutUint16 it)
      | .uint32 none, it => Write (PutUint32 it)
      | .uint64 none, it => Write (PutUint64 it)
      | .slice none (.uint8 none), it => encodeBytes it
      | .string none, it => encodeBytes it
      | .array n l e, it => encodeReflect env (.array n l e) (EncodeField env e) it
      | .slice n e, it => encodeReflect env (.slice n e) (EncodeField env e) it
      | t, it => encodeReflect env t (fun _ => ⟨[], none⟩) it

/-- An item of a batch call: a value of any type, boxed as `interface{}`. -/
structure Item where
  ty : Ty
  val : ty.denote

/-- Model of `EncodeFields(w, items...)`. -/
def EncodeFields (env : Env) (items : List Item) : EncOut :=
  encodeElems (fun item => EncodeField env item.ty item.val) items

/-- Body of `case *[]byte` in `DecodeField`; `cur` is what the target holds. -/
def decodeBytes (cur : List Byte) (r : Reader) : DecOut (List Byte) :=
  match ReadFull r 4 with
  | (.error e, r1) => ⟨some e, cur, r1⟩
  | (.ok lenB, r1) =>
    match ReadFull r1 (Uint32 lenB) with
    | (.error e, r2) => ⟨some e, cur, r2⟩
    | (.ok buf, r2) => ⟨none, buf, r2⟩

/-- The element loops of `decodeReflect`: decode `n` elements in order, each
into a fresh zero-valued variable, stopping at the first error. The result
holds the elements decoded so far. -/
def decodeElems {α : Type} (decodeField : α → Reader → DecOut α) (zero : α) :
    Nat → Reader → DecOut (List α)
  | 0, r => ⟨none, [], r⟩
  | n + 1, r =>
    match decodeField zero r with
    | ⟨some e, _, r1⟩ => ⟨some e, [], r1⟩
    | ⟨none, x, r1⟩ =>
      let out := decodeElems decodeField zero n r1
      ⟨out.err, x :: out.slot, out.rest⟩

/-- Model of `decodeReflect(r, &x)` for a variable `x` of type `u` holding
`cur`. The item is a pointer, so the guard on `itemT.Kind()` passes. As in
`encodeReflect`, the recursive call of `DecodeField` on elements is the
argument `decodeField`. `reflect.Copy` panics unless both element types are
the same type, so the raw-byte branch completes only for plain `uint8`. -/
def decodeReflect (env : Env) :
    (u : Ty) → (decodeField : u.Elem.denote → Reader → DecOut u.Elem.denote) →
      u.denote → Reader → DecOut u.denote
  | u, decodeField, cur, r =>
    match env.wellKnownDecoders (env.canonicalizeWellKnown u) with
    | some dec => dec (.ptr u) cur r
    | none =>
      match u, decodeField, cur with
      | .array _ l (.uint8 en), _, cur =>
        match ReadFull r l with
        | (.error e, r1) => ⟨some e, cur, r1⟩
        | (.ok buf, r1) =>
          match en with
          | none => ⟨none, buf, r1⟩
          | some nm => ⟨some (.Panic ("reflect.Copy: " ++ nm ++ " != uint8")), cur, r1⟩
      | .array _ l e, decodeField, cur =>
        let out := decodeElems decodeField e.zero l r
        match out.err with
        | some err => ⟨some err, cur, out.rest⟩
        | none => ⟨none, out.slot, out.rest⟩
      | .slice _ e, decodeField, cur =>
        match ReadFull r 4 with
        | (.error e, r1) => ⟨some e, cur, r1⟩
        | (.ok lenB, r1) =>
          let out := decodeElems decodeField e.zero (Uint32 lenB) r1
          match out.err with
          | some err => ⟨some err, cur, out.rest⟩
          | none => ⟨none, out.slot, out.rest⟩
      | u, _, cur =>
        ⟨some (.New ("type " ++ (Ty.ptr u).typeName ++ " cannot be decoded")), cur, r⟩

/-- Model of `DecodeField(r, &x)` for a variable `x` of type `u` holding `cur`:
the dynamic type of the item is `*u`. -/
def DecodeField (env : Env) : (u : Ty) → u.denote → Reader → DecOut u.denote
  | u, cur, r =>
    match env.Decoder (.ptr u) with
    | some dec => dec cur r
    | none =>
      match u, cur with
      | .bool none, cur =>
        match ReadFull r 1 with
        | (.error e, r1) => ⟨some e, cur, r1⟩
        | (.ok b, r1) =>
          if b.getD 0 0 = 0x00 then ⟨none, false, r1⟩
          else if b.getD 0 0 = 0x01 then ⟨none, true, r1⟩
          else ⟨some (.New ("invalid boolean value: " ++ hex (b.getD 0 0))), cur, r1⟩
      | .uint8 none, cur =>
        match ReadFull r 1 with
        | (.error e, r1) => ⟨some e, cur, r1⟩
        | (.ok b, r1) => ⟨none, b.getD 0 0, r1⟩
      | .uint16 none, cur =>
        match ReadFull r 2 with
        | (.error e, r1) => ⟨some e, cur, r1⟩
        | (.ok b, r1) => ⟨none, Uint16 b, r1⟩
      | .uint32 none, cur =>
        match ReadFull r 4 with
        | (.error e, r1) => ⟨some e, cur, r1⟩
        | (.ok b, r1) => ⟨none, Uint32 b, r1⟩
      | .uint64 none, cur =>
        match ReadFull r 8 with
        | (.error e, r1) => ⟨some e, cur, r1⟩
        | (.ok b, r1) => ⟨none, Uint64 b, r1⟩
      | .slice none (.uint8 none), cur => decodeBytes cur r
      | .string none, cur =>
        match decodeBytes [] r with
        | ⟨some e, _, r1⟩ => ⟨some e, cur, r1⟩
        | ⟨none, buf, r1⟩ => ⟨none, buf, r1⟩
      | .array n l e, cur => decodeReflect env (.array n l e) (DecodeField env e) cur r
      | .slice n e, cur => decodeReflect env (.slice n e) (DecodeField env e) cur r
      | u, cur => decodeReflect env u (fun z r1 => ⟨none, z, r1⟩) cur r

/-- Model of `DecodeField(r, item)` when the dynamic type `t` of `item` is not
a pointer type: no `case` of the type switch other than `Decoder` can match,
and `decodeReflect` stops at its guard. -/
def DecodeFieldNonPtr (env : Env) (t : Ty) (item : t.denote) (r : Reader) : DecOut t.denote :=
  match env.Decoder t with
  | some dec => dec item r
  | none => ⟨some (.New "can only decode into pointer types"), item, r⟩

/-- Model of `DecodeFields(r, &x1, ..., &xn)`: the items are the variables with
their current contents; the result holds their contents afterwards. -/
def DecodeFields (env : Env) : List Item → Reader → DecOut (List Item)
  | [], r => ⟨none, [], r⟩
  | item :: items, r =>
    match DecodeField env item.ty item.val r with
    | ⟨some e, x, r1⟩ => ⟨some e, ⟨item.ty, x⟩ :: items, r1⟩
    | ⟨none, x, r1⟩ =>
      let out := DecodeFields env items r1
      ⟨out.err, ⟨item.ty, x⟩ :: out.slot, out.rest⟩

/-- An environment with no user methods and an empty registry. -/
def Env.empty : Env :=
  ⟨fun _ => none, fun _ => none, fun t => t, fun _ => none, fun _ => none⟩

/-- Whether none of the user-supplied rules applies to `t`: no `Encode` method,
no `Decode` method on `*t`, and no registry entry under its canonical key. -/
def Env.free (env : Env) (t : Ty) : Bool :=
  (env.Encoder t).isNone && (env.Decoder (.ptr t)).isNone
    && (env.wellKnownEncoders (env.canonicalizeWellKnown t)).isNone
    && (env.wellKnownDecoders (env.canonicalizeWellKnown t)).isNone

/-- Types that the built-in and structural rules handle all the way down: the
predeclared `bool`, `uint8`, `uint16`, `uint32`, `uint64`, `string`, the type
`[]byte`, and arrays and slices of such types that no user-supplied rule
claims. -/
def Structural (env : Env) : Ty → Bool
  | .bool none | .uint8 none | .uint16 none | .uint32 none | .uint64 none => true
  | .string none => true
  | .slice none (.uint8 none) => true
  | .array n l e => env.free (.array n l e) && Structural env e
  | .slice n e => env.free (.slice n e) && Structural env e
  | _ => false

/-- Well-formed contents whose lengths and counts fit a 4-byte count: integers
in the range of their type, bytes below 256, arrays of exactly their static
length, byte sequences, strings and slices of at most `MaxUint32` elements. -/
def wellFormed : (t : Ty) → t.denote → Bool
  | .bool _, _ => true
  | .uint8 _, v => decide (v < 2 ^ 8)
  | .uint16 _, v => decide (v < 2 ^ 16)
  | .uint32 _, v => decide (v < 2 ^ 32)
  | .uint64 _, v => decide (v < 2 ^ 64)
  | .string _, v => decide (v.length ≤ MaxUint32) && v.all (fun b => decide (b < 256))
  | .array _ l e, v => decide (v.length = l) && v.all (fun x => wellFormed e x)
  | .slice _ e, v => decide (v.length ≤ MaxUint32) && v.all (fun x => wellFormed e x)
  | .ptr u, v => wellFormed u v
  | .struct _, _ => true

/-! ## The rule order, rule by rule -/

/-- The primitive rule on encode: the wire form of a value whose type is exactly
one of the built-in types `bool`, `uint8`, `uint16`, `uint32`, `uint64`,
`[]byte`, `string`; `none` when the type is not one of them. -/
def primitiveEncode : (t : Ty) → t.denote → Option EncOut
  | .bool none, it => some (Write (if it then trueWire else falseWire))
  | .uint8 none, it => some (Write [it])
  | .uint16 none, it => some (Write (PutUint16 it))
  | .uint32 none, it => some (Write (PutUint32 it))
  | .uint64 none, it => some (Write (PutUint64 it))
  | .slice none (.uint8 none), it => some (encodeBytes it)
  | .string none, it => some (encodeBytes it)
  | _, _ => none

/-- The structural rule on encode: arrays (raw bytes when the element kind is
`Uint8`, element by element otherwise) and slices (count, then element by
element); `none` when the type is neither. Elements go through `EncodeField`. -/
def structuralEncode (env : Env) : (t : Ty) → t.denote → Option EncOut
  | .array _ _ (.uint8 _), it => some (Write it)
  | .array _ _ e, it => some (encodeElems (EncodeField env e) it)
  | .slice _ e, it =>
    some (if it.length > MaxUint32 then
      ⟨[], some (.New "number of array elements too large to encode")⟩
    else (Write (PutUint32 it.length)).andThen (encodeElems (EncodeField env e) it))
  | _, _ => none

/-- The failure that ends the rule order on encode. -/
def unsupportedEncode (t : Ty) : EncOut :=
  ⟨[], some (.New ("type " ++ t.typeName ++ " cannot be encoded"))⟩

/-- The rule order as the specification words it: capability, then well-known
registry, then primitive, then structural, then failure. -/
def claimedOrderEncode (env : Env) (t : Ty) (item : t.denote) : EncOut :=
  match env.Encoder t with
  | some enc => enc item
  | none =>
    match env.wellKnownEncoders (env.canonicalizeWellKnown t) with
    | some enc => enc t item
    | none =>
      match primitiveEncode t item with
      | some out => out
      | none =>
        match structuralEncode env t item with
        | some out => out
        | none => unsupportedEncode t

/-- The rule order with the primitive rule ahead of the registry: capability,
then primitive, then well-known registry, then structural, then failure. -/
def primitiveFirstOrderEncode (env : Env) (t : Ty) (item : t.denote) : EncOut :=
  match env.Encoder t with
  | some enc => enc item
  | none =>
    match primitiveEncode t item with
    | some out => out
    | none =>
      match env.wellKnownEncoders (env.canonicalizeWellKnown t) with
      | some enc => enc t item
      | none =>
        match structuralEncode env t item with
        | some out => out
        | none => unsupportedEncode t

/-- The primitive rule on decode, for a variable of type `u` holding `cur`. -/
def primitiveDecode : (u : Ty) → u.denote → Reader → Option (DecOut u.denote)
  | .bool none, cur, r =>
    some (match ReadFull r 1 with
      | (.error e, r1) => ⟨some e, cur, r1⟩
      | (.ok b, r1) =>
        if b.getD 0 0 = 0x00 then ⟨none, false, r1⟩
        else if b.getD 0 0 = 0x01 then ⟨none, true, r1⟩
        else ⟨some (.New ("invalid boolean value: " ++ hex (b.getD 0 0))), cur, r1⟩)
  | .uint8 none, cur, r =>
    some (match ReadFull r 1 with
      | (.error e, r1) => ⟨some e, cur, r1⟩
      | (.ok b, r1) => ⟨none, b.getD 0 0, r1⟩)
  | .uint16 none, cur, r =>
    some (match ReadFull r 2 with
      | (.error e, r1) => ⟨some e, cur, r1⟩
      | (.ok b, r1) => ⟨none, Uint16 b, r1⟩)
  | .uint32 none, cur, r =>
    some (match ReadFull r 4 with
      | (.error e, r1) => ⟨some e, cur, r1⟩
      | (.ok b, r1) => ⟨none, Uint32 b, r1⟩)
  | .uint64 none, cur, r =>
    some (match ReadFull r 8 with
      | (.error e, r1) => ⟨some e, cur, r1⟩
      | (.ok b, r1) => ⟨none, Uint64 b, r1⟩)
  | .slice none (.uint8 none), cur, r => some (decodeBytes cur r)
  | .string none, cur, r =>
    some (match decodeBytes [] r with
      | ⟨some e, _, r1⟩ => ⟨some e, cur, r1⟩
      | ⟨none, buf, r1⟩ => ⟨none, buf, r1⟩)
  | _, _, _ => none

/-- The structural rule on decode, for a variable of type `u` holding `cur`.
Elements go through `DecodeField`. -/
def structuralDecode (env : Env) : (u : Ty) → u.denote → Reader → Option (DecOut u.denote)
  | .array _ l (.uint8 en), cur, r =>
    some (match ReadFull r l with
      | (.error e, r1) => ⟨some e, cur, r1⟩
      | (.ok buf, r1) =>
        match en with
        | none => ⟨none, buf, r1⟩
        | some nm => ⟨some (.Panic ("reflect.Copy: " ++ nm ++ " != uint8")), cur, r1⟩)
  | .array _ l e, cur, r =>
    some (let out := decodeElems (DecodeField env e) e.zero l r
      match out.err with
      | some err => ⟨some err, cur, out.rest⟩
      | none => ⟨none, out.slot, out.rest⟩)
  | .slice _ e, cur, r =>
    some (match ReadFull r 4 with
      | (.error e, r1) => ⟨some e, cur, r1⟩
      | (.ok lenB, r1) =>
        let out := decodeElems (DecodeField env e) e.zero (Uint32 lenB) r1
        match out.err with
        | some err => ⟨some err, cur, out.rest⟩
        | none => ⟨none, out.slot, out.rest⟩)
  | _, _, _ => none

/-- The failure that ends the rule order on decode. -/
def unsupportedDecode (u : Ty) (cur : u.denote) (r : Reader) : DecOut u.denote :=
  ⟨some (.New ("type " ++ (Ty.ptr u).typeName ++ " cannot be decoded")), cur, r⟩

/-- The rule order as the specification words it, on decode. -/
def claimedOrderDecode (env : Env) (u : Ty) (cur : u.denote) (r : Reader) : DecOut u.denote :=
  match env.Decoder (.ptr u) with
  | some dec => dec cur r
  | none =>
    match env.wellKnownDecoders (env.canonicalizeWellKnown u) with
    | some dec => dec (.ptr u) cur r
    | none =>
      match primitiveDecode u cur r with
      | some out => out
      | none =>
        match structuralDecode env u cur r with
        | some out => out
        | none => unsupportedDecode u cur r

/-- The rule order with the primitive rule ahead of the registry, on decode. -/
def primitiveFirstOrderDecode (env : Env) (u : Ty) (cur : u.denote) (r : Reader) :
    DecOut u.denote :=
  match env.Decoder (.ptr u) with
  | some dec => dec cur r
  | none =>
    match primitiveDecode u cur r with
    | some out => out
    | none =>
      match env.wellKnownDecoders (env.canonicalizeWellKnown u) with
      | some dec => dec (.ptr u) cur r
      | none =>
        match structuralDecode env u cur r with
        | some out => out
        | none => unsupportedDecode u cur r

/-- The number that a byte string denotes in big-endian order, most significant
byte first: the sum of `b_i * 256 ^ (k - 1 - i)` over its `k` bytes. -/
def bigEndianValue : List Byte → Nat
  | [] => 0
  | b :: bs => b * 256 ^ bs.length + bigEndianValue bs

/-- An encoding call that succeeded and wrote exactly `k` bytes, each below 256,
whose big-endian value is `x`. -/
def EncodesBigEndian (out : EncOut) (k x : Nat) : Prop :=
  out.err = none ∧ out.written.length = k ∧ bigEndianValue out.written = x
    ∧ ∀ b ∈ out.written, b < 256

/-! ## Sample environments -/

/-- Canonical key of a type: the type with a top-level pointer removed. -/
def stripPtr : Ty → Ty
  | .ptr u => u
  | t => t

/-- A registry holding one entry, for the built-in type `uint8`: its encoder
writes the byte `0xAA` twice, its decoder reads two bytes and stores the zero
value. -/
def byteRegistry : Env where
  Encode := fun _ => none
  Decode := fun _ => none
  canonicalizeWellKnown := stripPtr
  wellKnownEncoders := fun k =>
    if k = .uint8 none then some (fun _ _ => ⟨[0xAA, 0xAA], none⟩) else none
  wellKnownDecoders := fun k =>
    if k = .uint8 none then some (fun t _ r => ⟨none, t.zero, r.drop 2⟩) else none

/-- The type `*cafeEncodeDecoder` of the tests. -/
abbrev cafe : Ty := .ptr (.struct "cafeEncodeDecoder")

/-- An environment in which `*cafeEncodeDecoder` has an `Encode` method that
writes `ca fe` and a `Decode` method that reads two bytes, and in which the
registry also holds an entry for the same type (writing and reading one byte). -/
def cafeEnv : Env where
  Encode := fun t => if t = cafe then some (fun _ => ⟨[0xca, 0xfe], none⟩) else none
  Decode := fun t =>
    if t = cafe then
      some (fun cur r =>
        match ReadFull r 2 with
        | (.error e, r1) => ⟨some e, cur, r1⟩
        | (.ok _, r1) => ⟨none, cur, r1⟩)
    else none
  canonicalizeWellKnown := stripPtr
  wellKnownEncoders := fun k =>
    if k = .struct "cafeEncodeDecoder" then some (fun _ _ => ⟨[0], none⟩) else none
  wellKnownDecoders := fun k =>
    if k = .struct "cafeEncodeDecoder" then some (fun _ cur r => ⟨none, cur, r.drop 1⟩)
    else none

/-- A defined type `type MyByte uint8`. -/
abbrev myByte : Ty := .uint8 (some "MyByte")

/-- An environment in which `MyByte` has an `Encode` method that writes the
marker `0xAB` followed by the byte, and `*MyByte` a `Decode` method that reads
the marker and the byte back. -/
def myByteEnv : Env where
  Encode := fun t =>
    match t with
    | .uint8 (some "MyByte") => some (fun v => ⟨[0xAB, v], none⟩)
    | _ => none
  Decode := fun t =>
    match t with
    | .ptr (.uint8 (some "MyByte")) =>
      some (fun cur r =>
        match ReadFull r 2 with
        | (.error e, r1) => ⟨some e, cur, r1⟩
        | (.ok b, r1) => ⟨none, b.getD 1 0, r1⟩)
    | _ => none
  canonicalizeWellKnown := stripPtr
  wellKnownEncoders := fun _ => none
  wellKnownDecoders := fun _ => none

/-- Whether the type is exactly one of the built-in types that the type switches
of `EncodeField` and `DecodeField` name: `bool`, `uint8`, `uint16`, `uint32`,
`uint64`, `[]byte`, `string`. -/
def Ty.isBuiltin : Ty → Bool
  | .bool none | .uint8 none | .uint16 none | .uint32 none | .uint64 none => true
  | .string none => true
  | .slice none (.uint8 none) => true
  | _ => false

/-- Model of `DecodeField(r, item)` for an item of any dynamic type `t`: a
pointer `&x` to a variable of type `u` when `t` is `*u`, a plain value
otherwise. -/
def DecodeFieldItem (env : Env) : (t : Ty) → t.denote → Reader → DecOut t.denote
  | .ptr u, item, r => DecodeField env u item r
  | .bool n, item, r => DecodeFieldNonPtr env (.bool n) item r
  | .uint8 n, item, r => DecodeFieldNonPtr env (.uint8 n) item r
  | .uint16 n, item, r => DecodeFieldNonPtr env (.uint16 n) item r
  | .uint32 n, item, r => DecodeFieldNonPtr env (.uint32 n) item r
  | .uint64 n, item, r => DecodeFieldNonPtr env (.uint64 n) item r
  | .string n, item, r => DecodeFieldNonPtr env (.string n) item r
  | .array n l e, item, r => DecodeFieldNonPtr env (.array n l e) item r
  | .slice n e, item, r => DecodeFieldNonPtr env (.slice n e) item r
  | .struct n, item, r => DecodeFieldNonPtr env (.struct n) item r

/-- The empty struct type `struct {}`. -/
abbrev emptyStruct : Ty := .struct "struct \x7b\x7d"

/-- The general sequence rule of `encodeReflect` (the `reflect.Slice` branch):
the count, then every element through `EncodeField`. -/
def genericSliceEncode (env : Env) (e : Ty) (item : List e.denote) : EncOut :=
  if item.length > MaxUint32 then
    ⟨[], some (.New "number of array elements too large to encode")⟩
  else
    (Write (PutUint32 item.length)).andThen (encodeElems (EncodeField env e) item)

/-- The general array rule of `encodeReflect` (the loop after the raw-byte
special case): every element through `EncodeField`. -/
def genericArrayEncode (env : Env) (e : Ty) (item : List e.denote) : EncOut :=
  encodeElems (EncodeField env e) item

/-- The general sequence rule of `decodeReflect` (the `reflect.Slice` branch) for
a variable holding `cur`: the count, then that many elements through
`DecodeField`, stored only when all of them decoded. -/
def genericSliceDecode (env : Env) (e : Ty) (cur : List e.denote) (r : Reader) :
    DecOut (List e.denote) :=
  match ReadFull r 4 with
  | (.error err, r1) => ⟨some err, cur, r1⟩
  | (.ok lenB, r1) =>
    let out := decodeElems (DecodeField env e) e.zero (Uint32 lenB) r1
    match out.err with
    | some err => ⟨some err, cur, out.rest⟩
    | none => ⟨none, out.slot, out.rest⟩

/-- The general array rule of `decodeReflect` (the `else` branch of the raw-byte
special case) for an array of length `l` held in a variable holding `cur`. -/
def genericArrayDecode (env : Env) (e : Ty) (l : Nat) (cur : List e.denote) (r : Reader) :
    DecOut (List e.denote) :=
  let out := decodeElems (DecodeField env e) e.zero l r
  match out.err with
  | some err => ⟨some err, cur, out.rest⟩
  | none => ⟨none, out.slot, out.rest⟩

/-- The value of a lower-case hexadecimal digit, `none` for any other character. -/
def hexDigitValue (c : Char) : Option Nat :=
  if '0' ≤ c ∧ c ≤ '9' then some (c.toNat - '0'.toNat)
  else if 'a' ≤ c ∧ c ≤ 'f' then some (c.toNat - 'a'.toNat + 10)
  else none

/-- The number that a text denotes when read as a lower-case hexadecimal numeral,
most significant digit first; `none` when it is empty or holds any other
character. -/
def hexValue (s : String) : Option Nat :=
  match s.data with
  | [] => none
  | cs =>
    cs.foldl
      (fun acc c =>
        match acc, hexDigitValue c with
        | some a, some d => some (a * 16 + d)
        | _, _ => none)
      (some 0)

/-! ## Basic facts -/

theorem ReadFull_append (p rest : List Byte) (n : Nat) (h : p.length = n) :
    ReadFull (p ++ rest) n = (.ok p, rest) := by
  subst h
  simp [ReadFull]

theorem Uint16_PutUint16 (v : Nat) (h : v < 2 ^ 16) : Uint16 (PutUint16 v) = v := by
  simp [Uint16, PutUint16]
  omega

theorem Uint32_PutUint32 (v : Nat) (h : v < 2 ^ 32) : Uint32 (PutUint32 v) = v := by
  simp [Uint32, PutUint32]
  omega

theorem Uint64_PutUint64 (v : Nat) (h : v < 2 ^ 64) : Uint64 (PutUint64 v) = v := by
  simp [Uint64, PutUint64]
  omega

theorem andThen_ok (a b : EncOut) (h : a.err = none) :
    a.andThen b = ⟨a.written ++ b.written, b.err⟩ := by
  simp [EncOut.andThen, h]

theorem encodeElems_ok {α : Type} (enc : α → EncOut) (xs : List α)
    (h : ∀ x ∈ xs, (enc x).err = none) :
    encodeElems enc xs = ⟨(xs.map (fun x => (enc x).written)).flatten, none⟩ := by
  induction xs with
  | nil => rfl
  | cons x xs ih =>
    have hx := h x (List.mem_cons_self x xs)
    have ih2 := ih (fun y hy => h y (List.mem_cons_of_mem x hy))
    simp [encodeElems, andThen_ok _ _ hx, ih2]

theorem decodeElems_join {α : Type} (enc : α → EncOut) (dec : α → Reader → DecOut α)
    (zero : α) (xs : List α)
    (h : ∀ x ∈ xs, ∀ rest, dec zero ((enc x).written ++ rest) = ⟨none, x, rest⟩)
    (rest : Reader) :
    decodeElems dec zero xs.length ((xs.map (fun x => (enc x).written)).flatten ++ rest)
      = ⟨none, xs, rest⟩ := by
  induction xs with
  | nil => rfl
  | cons x xs ih =>
    have hx := h x (List.mem_cons_self x xs)
    have ih2 := ih (fun y hy => h y (List.mem_cons_of_mem x hy))
    simp [decodeElems, hx, ih2]

theorem free_iff (env : Env) (t : Ty) :
    env.free t = true ↔ env.Encoder t = none ∧ env.Decoder (.ptr t) = none
      ∧ env.wellKnownEncoders (env.canonicalizeWellKnown t) = none
      ∧ env.wellKnownDecoders (env.canonicalizeWellKnown t) = none := by
  simp [Env.free, and_assoc]

theorem core_array (env : Env) (n : Option String) (l : Nat) (e : Ty)
    (hf : env.free (.array n l e) = true) (hs : Structural env e = true)
    (v : List e.denote) (hl : v.length = l)
    (ih : ∀ x ∈ v, (EncodeField env e x).err = none ∧ ∀ cur rest,
      DecodeField env e cur ((EncodeField env e x).written ++ rest) = ⟨none, x, rest⟩) :
    (EncodeField env (.array n l e) v).err = none ∧ ∀ cur rest,
      DecodeField env (.array n l e) cur ((EncodeField env (.array n l e) v).written ++ rest)
        = ⟨none, v, rest⟩ := by
  obtain ⟨h1, h2, h3, h4⟩ := (free_iff env _).1 hf
  have henc := encodeElems_ok (EncodeField env e) v (fun x hx => (ih x hx).1)
  have hdec := decodeElems_join (EncodeField env e) (DecodeField env e) e.zero v
    (fun x hx rest => (ih x hx).2 _ rest)
  have hE : EncodeField env (.array n l e) v
      = encodeReflect env (.array n l e) (EncodeField env e) v := by
    rw [EncodeField]; simp only [h1]
  have hD : ∀ cur r, DecodeField env (.array n l e) cur r
      = decodeReflect env (.array n l e) (DecodeField env e) cur r := by
    intro cur r; rw [DecodeField]; simp only [h2]
  simp only [hE, hD]
  cases e with
  | uint8 en =>
    cases en with
    | none =>
      simp [encodeReflect, decodeReflect, h3, h4, Write, ReadFull_append _ _ _ hl]
    | some nm => simp [Structural] at hs
  | _ =>
    simp [encodeReflect, decodeReflect, h3, h4, henc]
    intro cur rest
    rw [← hl, hdec]

theorem core_bytes (it : List Byte) (hl : it.length ≤ MaxUint32) :
    (encodeBytes it).err = none ∧ (encodeBytes it).written = PutUint32 it.length ++ it
      ∧ ∀ cur rest, decodeBytes cur ((encodeBytes it).written ++ rest) = ⟨none, it, rest⟩ := by
  have hlt : it.length < 2 ^ 32 := by simp [MaxUint32] at hl; omega
  have hw : encodeBytes it = ⟨PutUint32 it.length ++ it, none⟩ := by
    simp [encodeBytes, Nat.not_lt.2 hl, Write, EncOut.andThen]
  refine ⟨by simp [hw], by simp [hw], fun cur rest => ?_⟩
  simp only [hw, decodeBytes, List.append_assoc]
  rw [ReadFull_append _ _ 4 (by simp [PutUint32])]
  simp only [Uint32_PutUint32 _ hlt]
  rw [ReadFull_append _ _ _ rfl]

theorem core_slice (env : Env) (n : Option String) (e : Ty)
    (hf : env.free (.slice n e) = true) (hs : Structural env e = true)
    (v : List e.denote) (hl : v.length ≤ MaxUint32)
    (ih : ∀ x ∈ v, (EncodeField env e x).err = none ∧ ∀ cur rest,
      DecodeField env e cur ((EncodeField env e x).written ++ rest) = ⟨none, x, rest⟩) :
    (EncodeField env (.slice n e) v).err = none ∧ ∀ cur rest,
      DecodeField env (.slice n e) cur ((EncodeField env (.slice n e) v).written ++ rest)
        = ⟨none, v, rest⟩ := by
  obtain ⟨h1, h2, h3, h4⟩ := (free_iff env _).1 hf
  have hlt : v.length < 2 ^ 32 := by simp [MaxUint32] at hl; omega
  have henc := encodeElems_ok (EncodeField env e) v (fun x hx => (ih x hx).1)
  have hdec := decodeElems_join (EncodeField env e) (DecodeField env e) e.zero v
    (fun x hx rest => (ih x hx).2 _ rest)
  have hR : encodeReflect env (.slice n e) (EncodeField env e) v
      = ⟨PutUint32 v.length ++ (v.map (fun x => (EncodeField env e x).written)).flatten,
          none⟩ := by
    simp [encodeReflect, h3, Nat.not_lt.2 hl, henc, Write, EncOut.andThen]
  have hRD : ∀ cur rest, decodeReflect env (.slice n e) (DecodeField env e) cur
      ((PutUint32 v.length ++ (v.map (fun x => (EncodeField env e x).written)).flatten)
        ++ rest) = ⟨none, v, rest⟩ := by
    intro cur rest
    simp only [decodeReflect, h4, List.append_assoc]
    rw [ReadFull_append _ _ 4 (by simp [PutUint32])]
    simp only [Uint32_PutUint32 _ hlt, hdec]
  by_cases hb : n = none ∧ e = .uint8 none
  · obtain ⟨rfl, rfl⟩ := hb
    have hE : ∀ it, EncodeField env (.slice none (.uint8 none)) it = encodeBytes it := by
      intro it; rw [EncodeField]; simp only [h1]
    have hD : ∀ cur r, DecodeField env (.slice none (.uint8 none)) cur r
        = decodeBytes cur r := by
      intro cur r; rw [DecodeField]; simp only [h2]
    simp only [hE, hD]
    exact ⟨(core_bytes v hl).1, (core_bytes v hl).2.2⟩
  · have hE : EncodeField env (.slice n e) v
        = encodeReflect env (.slice n e) (EncodeField env e) v := by
      rw [EncodeField]; simp only [h1]
      intro _ hn he _; exact hb ⟨hn, he⟩
    have hD : ∀ cur r, DecodeField env (.slice n e) cur r
        = decodeReflect env (.slice n e) (DecodeField env e) cur r := by
      intro cur r; rw [DecodeField]; simp only [h2]
      intro _ hn he _; exact hb ⟨hn, he⟩
    refine ⟨by rw [hE, hR], fun cur rest => ?_⟩
    rw [hE, hD, hR]
    exact hRD cur rest

theorem roundtrip_core (env : Env) :
    ∀ (t : Ty), Structural env t = true → ∀ (v : t.denote), wellFormed t v = true →
      (EncodeField env t v).err = none ∧ ∀ cur rest,
        DecodeField env t cur ((EncodeField env t v).written ++ rest) = ⟨none, v, rest⟩ := by
  intro t
  induction t with
  | bool n =>
    intro hs v _
    cases n with
    | some nm => simp [Structural] at hs
    | none =>
      cases v <;>
        simp [EncodeField, DecodeField, Env.Encoder, Env.Decoder, Ty.mayHaveMethods,
          Ty.isDefined, Write, trueWire, falseWire, ReadFull]
  | uint8 n =>
    intro hs v _
    cases n with
    | some nm => simp [Structural] at hs
    | none =>
      simp [EncodeField, DecodeField, Env.Encoder, Env.Decoder, Ty.mayHaveMethods,
        Ty.isDefined, Write, ReadFull]
  | uint16 n =>
    intro hs v hv
    cases n with
    | some nm => simp [Structural] at hs
    | none =>
      have hv2 : v < 2 ^ 16 := by simpa [wellFormed] using hv
      refine ⟨by simp [EncodeField, Env.Encoder, Ty.mayHaveMethods, Ty.isDefined, Write],
        fun cur rest => ?_⟩
      simp only [EncodeField, DecodeField, Env.Encoder, Env.Decoder, Ty.mayHaveMethods,
        Ty.isDefined, Write, Option.isSome_none, Bool.false_eq_true, if_false]
      rw [ReadFull_append _ _ 2 (by simp [PutUint16])]
      simp only [Uint16_PutUint16 _ hv2]
  | uint32 n =>
    intro hs v hv
    cases n with
    | some nm => simp [Structural] at hs
    | none =>
      have hv2 : v < 2 ^ 32 := by simpa [wellFormed] using hv
      refine ⟨by simp [EncodeField, Env.Encoder, Ty.mayHaveMethods, Ty.isDefined, Write],
        fun cur rest => ?_⟩
      simp only [EncodeField, DecodeField, Env.Encoder, Env.Decoder, Ty.mayHaveMethods,
        Ty.isDefined, Write, Option.isSome_none, Bool.false_eq_true, if_false]
      rw [ReadFull_append _ _ 4 (by simp [PutUint32])]
      simp only [Uint32_PutUint32 _ hv2]
  | uint64 n =>
    intro hs v hv
    cases n with
    | some nm => simp [Structural] at hs
    | none =>
      have hv2 : v < 2 ^ 64 := by simpa [wellFormed] using hv
      refine ⟨by simp [EncodeField, Env.Encoder, Ty.mayHaveMethods, Ty.isDefined, Write],
        fun cur rest => ?_⟩
      simp only [EncodeField, DecodeField, Env.Encoder, Env.Decoder, Ty.mayHaveMethods,
        Ty.isDefined, Write, Option.isSome_none, Bool.false_eq_true, if_false]
      rw [ReadFull_append _ _ 8 (by simp [PutUint64])]
      simp only [Uint64_PutUint64 _ hv2]
  | string n =>
    intro hs v hv
    cases n with
    | some nm => simp [Structural] at hs
    | none =>
      have hl : v.length ≤ MaxUint32 := by
        simp only [wellFormed, Bool.and_eq_true, decide_eq_true_eq] at hv
        exact hv.1
      have hc := core_bytes v hl
      refine ⟨by simpa [EncodeField, Env.Encoder, Ty.mayHaveMethods, Ty.isDefined] using hc.1,
        fun cur rest => ?_⟩
      simp only [EncodeField, DecodeField, Env.Encoder, Env.Decoder, Ty.mayHaveMethods,
        Ty.isDefined, Option.isSome_none, Bool.false_eq_true, if_false]
      rw [hc.2.2]
  | array n l e ih =>
    intro hs v hv
    simp only [Structural, Bool.and_eq_true] at hs
    simp only [wellFormed, Bool.and_eq_true, decide_eq_true_eq, List.all_eq_true] at hv
    exact core_array env n l e hs.1 hs.2 v hv.1 (fun x hx => ih hs.2 x (hv.2 x hx))
  | slice n e ih =>
    intro hs v hv
    simp only [wellFormed, Bool.and_eq_true, decide_eq_true_eq, List.all_eq_true] at hv
    by_cases hb : n = none ∧ e = .uint8 none
    · obtain ⟨rfl, rfl⟩ := hb
      have hc := core_bytes v hv.1
      refine ⟨by simpa [EncodeField, Env.Encoder, Ty.mayHaveMethods, Ty.isDefined] using hc.1,
        fun cur rest => ?_⟩
      simp only [EncodeField, DecodeField, Env.Encoder, Env.Decoder, Ty.mayHaveMethods,
        Ty.isDefined, Option.isSome_none, Bool.false_eq_true, if_false]
      rw [hc.2.2]
    · have hs2 : env.free (.slice n e) = true ∧ Structural env e = true := by
        rw [Structural] at hs
        · simpa using hs
        · intro hn he; exact hb ⟨hn, he⟩
      exact core_slice env n e hs2.1 hs2.2 v hv.1 (fun x hx => ih hs2.2 x (hv.2 x hx))
  | ptr u _ => intro hs; simp [Structural] at hs
  | struct nm => intro hs; simp [Structural] at hs

/-! ## Round trip and exact consumption -/

/-- C1. Round trip: for every supported value `v` (built from bool, the unsigned
integers, byte sequences, text, arrays and sequences, nested arbitrarily, every
length and count at most `MaxUint32`), `EncodeField` succeeds, and `DecodeField`
run on exactly the bytes it wrote, into a variable of the type of `v` holding
anything, succeeds, leaves `v` in the variable and leaves no byte unread. -/
theorem C1_round_trip (env : Env) (t : Ty) (v cur : t.denote)
    (hs : Structural env t = true) (hv : wellFormed t v = true) :
    (EncodeField env t v).err = none
      ∧ DecodeField env t cur (EncodeField env t v).written = ⟨none, v, []⟩ := by
  have h := roundtrip_core env t hs v hv
  refine ⟨h.1, ?_⟩
  have h2 := h.2 cur []
  rwa [List.append_nil] at h2

theorem C1_round_trip_witness :
    (EncodeField Env.empty (.slice none (.array none 2 (.string none)))
        [[[104, 105], []], [[0], [255, 1]]]).err = none
      ∧ DecodeField Env.empty (.slice none (.array none 2 (.string none))) [[[7], [8]]]
          (EncodeField Env.empty (.slice none (.array none 2 (.string none)))
            [[[104, 105], []], [[0], [255, 1]]]).written
        = ⟨none, [[[104, 105], []], [[0], [255, 1]]], []⟩ :=
  C1_round_trip Env.empty (.slice none (.array none 2 (.string none)))
    [[[104, 105], []], [[0], [255, 1]]] [[[7], [8]]] (by decide) (by decide)

/-- C2. Exact consumption: for every supported built-in or structural value `v`
and every byte string `rest`, `DecodeField` on the stream `encode(v) ++ rest`
succeeds with `v` and leaves exactly `rest` unread, which is the stream without
its first `len(encode(v))` bytes. -/
theorem C2_exact_consumption (env : Env) (t : Ty) (v cur : t.denote) (rest : List Byte)
    (hs : Structural env t = true) (hv : wellFormed t v = true) :
    DecodeField env t cur ((EncodeField env t v).written ++ rest) = ⟨none, v, rest⟩
      ∧ (DecodeField env t cur ((EncodeField env t v).written ++ rest)).rest
          = ((EncodeField env t v).written ++ rest).drop (EncodeField env t v).written.length := by
  have h := (roundtrip_core env t hs v hv).2 cur rest
  refine ⟨h, ?_⟩
  rw [h]
  simp

theorem C2_exact_consumption_witness :
    DecodeField Env.empty (.array none 2 (.slice none (.uint16 none))) [[], []]
        ((EncodeField Env.empty (.array none 2 (.slice none (.uint16 none)))
          [[1, 65535], []]).written ++ [9, 9, 9])
        = ⟨none, [[1, 65535], []], [9, 9, 9]⟩
      ∧ (DecodeField Env.empty (.array none 2 (.slice none (.uint16 none))) [[], []]
          ((EncodeField Env.empty (.array none 2 (.slice none (.uint16 none)))
            [[1, 65535], []]).written ++ [9, 9, 9])).rest
        = ((EncodeField Env.empty (.array none 2 (.slice none (.uint16 none)))
            [[1, 65535], []]).written ++ [9, 9, 9]).drop
            (EncodeField Env.empty (.array none 2 (.slice none (.uint16 none)))
              [[1, 65535], []]).written.length :=
  C2_exact_consumption Env.empty (.array none 2 (.slice none (.uint16 none)))
    [[1, 65535], []] [[], []] [9, 9, 9] (by decide) (by decide)

/-! ## Rule order -/

theorem EncodeField_eq_order (env : Env) (t : Ty) (item : t.denote) :
    EncodeField env t item = primitiveFirstOrderEncode env t item := by
  cases t with
  | bool n =>
    cases n with
    | none =>
      rw [EncodeField, primitiveFirstOrderEncode]
      cases env.Encoder _ <;>
        simp [primitiveEncode, encodeReflect, structuralEncode, unsupportedEncode]
    | some nm =>
      rw [EncodeField]
      · rw [primitiveFirstOrderEncode]
        cases env.Encoder _ <;>
          simp [primitiveEncode, encodeReflect, structuralEncode, unsupportedEncode]
      all_goals simp
  | uint8 n =>
    cases n with
    | none =>
      rw [EncodeField, primitiveFirstOrderEncode]
      cases env.Encoder _ <;>
        simp [primitiveEncode, encodeReflect, structuralEncode, unsupportedEncode]
    | some nm =>
      rw [EncodeField]
      · rw [primitiveFirstOrderEncode]
        cases env.Encoder _ <;>
          simp [primitiveEncode, encodeReflect, structuralEncode, unsupportedEncode]
      all_goals simp
  | uint16 n =>
    cases n with
    | none =>
      rw [EncodeField, primitiveFirstOrderEncode]
      cases env.Encoder _ <;>
        simp [primitiveEncode, encodeReflect, structuralEncode, unsupportedEncode]
    | some nm =>
      rw [EncodeField]
      · rw [primitiveFirstOrderEncode]
        cases env.Encoder _ <;>
          simp [primitiveEncode, encodeReflect, structuralEncode, unsupportedEncode]
      all_goals simp
  | uint32 n =>
    cases n with
    | none =>
      rw [EncodeField, primitiveFirstOrderEncode]
      cases env.Encoder _ <;>
        simp [primitiveEncode, encodeReflect, structuralEncode, unsupportedEncode]
    | some nm =>
      rw [EncodeField]
      · rw [primitiveFirstOrderEncode]
        cases env.Encoder _ <;>
          simp [primitiveEncode, encodeReflect, structuralEncode, unsupportedEncode]
      all_goals simp
  | uint64 n =>
    cases n with
    | none =>
      rw [EncodeField, primitiveFirstOrderEncode]
      cases env.Encoder _ <;>
        simp [primitiveEncode, encodeReflect, structuralEncode, unsupportedEncode]
    | some nm =>
      rw [EncodeField]
      · rw [primitiveFirstOrderEncode]
        cases env.Encoder _ <;>
          simp [primitiveEncode, encodeReflect, structuralEncode, unsupportedEncode]
      all_goals simp
  | string n =>
    cases n with
    | none =>
      rw [EncodeField, primitiveFirstOrderEncode]
      cases env.Encoder _ <;>
        simp [primitiveEncode, encodeReflect, structuralEncode, unsupportedEncode]
    | some nm =>
      rw [EncodeField]
      · rw [primitiveFirstOrderEncode]
        cases env.Encoder _ <;>
          simp [primitiveEncode, encodeReflect, structuralEncode, unsupportedEncode]
      all_goals simp
  | ptr u =>
    rw [EncodeField]
    · rw [primitiveFirstOrderEncode]
      cases env.Encoder _ <;>
        simp [primitiveEncode, encodeReflect, structuralEncode, unsupportedEncode]
    all_goals simp
  | struct nm =>
    rw [EncodeField]
    · rw [primitiveFirstOrderEncode]
      cases env.Encoder _ <;>
        simp [primitiveEncode, encodeReflect, structuralEncode, unsupportedEncode]
    all_goals simp
  | array n l e =>
    rw [EncodeField, primitiveFirstOrderEncode]
    cases env.Encoder _ <;> cases e <;>
      simp [primitiveEncode, encodeReflect, structuralEncode, unsupportedEncode]
  | slice n e =>
    by_cases hb : n = none ∧ e = .uint8 none
    · obtain ⟨rfl, rfl⟩ := hb
      rw [EncodeField, primitiveFirstOrderEncode]
      cases env.Encoder _ <;>
        simp [primitiveEncode, encodeReflect, structuralEncode, unsupportedEncode]
    · rw [EncodeField]
      · rw [primitiveFirstOrderEncode]
        cases env.Encoder _
        · cases n <;> cases e <;> (try rename_i en; cases en) <;>
            simp [primitiveEncode, encodeReflect, structuralEncode, unsupportedEncode] at hb ⊢
        · rfl
      · intro _ hn he _; exact hb ⟨hn, he⟩

theorem DecodeField_eq_order (env : Env) (t : Ty) (cur : t.denote) (r : Reader) :
    DecodeField env t cur r = primitiveFirstOrderDecode env t cur r := by
  cases t with
  | bool n =>
    cases n with
    | none =>
      rw [DecodeField, primitiveFirstOrderDecode]
      cases env.Decoder _ <;>
        simp [primitiveDecode, decodeReflect, structuralDecode, unsupportedDecode]
    | some nm =>
      rw [DecodeField]
      · rw [primitiveFirstOrderDecode]
        cases env.Decoder _ <;>
          simp [primitiveDecode, decodeReflect, structuralDecode, unsupportedDecode]
      all_goals simp
  | uint8 n =>
    cases n with
    | none =>
      rw [DecodeField, primitiveFirstOrderDecode]
      cases env.Decoder _ <;>
        simp [primitiveDecode, decodeReflect, structuralDecode, unsupportedDecode]
    | some nm =>
      rw [DecodeField]
      · rw [primitiveFirstOrderDecode]
        cases env.Decoder _ <;>
          simp [primitiveDecode, decodeReflect, structuralDecode, unsupportedDecode]
      all_goals simp
  | uint16 n =>
    cases n with
    | none =>
      rw [DecodeField, primitiveFirstOrderDecode]
      cases env.Decoder _ <;>
        simp [primitiveDecode, decodeReflect, structuralDecode, unsupportedDecode]
    | some nm =>
      rw [DecodeField]
      · rw [primitiveFirstOrderDecode]
        cases env.Decoder _ <;>
          simp [primitiveDecode, decodeReflect, structuralDecode, unsupportedDecode]
      all_goals simp
  | uint32 n =>
    cases n with
    | none =>
      rw [DecodeField, primitiveFirstOrderDecode]
      cases env.Decoder _ <;>
        simp [primitiveDecode, decodeReflect, structuralDecode, unsupportedDecode]
    | some nm =>
      rw [DecodeField]
      · rw [primitiveFirstOrderDecode]
        cases env.Decoder _ <;>
          simp [primitiveDecode, decodeReflect, structuralDecode, unsupportedDecode]
      all_goals simp
  | uint64 n =>
    cases n with
    | none =>
      rw [DecodeField, primitiveFirstOrderDecode]
      cases env.Decoder _ <;>
        simp [primitiveDecode, decodeReflect, structuralDecode, unsupportedDecode]
    | some nm =>
      rw [DecodeField]
      · rw [primitiveFirstOrderDecode]
        cases env.Decoder _ <;>
          simp [primitiveDecode, decodeReflect, structuralDecode, unsupportedDecode]
      all_goals simp
  | string n =>
    cases n with
    | none =>
      rw [DecodeField, primitiveFirstOrderDecode]
      cases env.Decoder _ <;>
        simp [primitiveDecode, decodeReflect, structuralDecode, unsupportedDecode]
    | some nm =>
      rw [DecodeField]
      · rw [primitiveFirstOrderDecode]
        cases env.Decoder _ <;>
          simp [primitiveDecode, decodeReflect, structuralDecode, unsupportedDecode]
      all_goals simp
  | ptr u =>
    rw [DecodeField]
    · rw [primitiveFirstOrderDecode]
      cases env.Decoder _ <;>
        simp [primitiveDecode, decodeReflect, structuralDecode, unsupportedDecode]
    all_goals simp
  | struct nm =>
    rw [DecodeField]
    · rw [primitiveFirstOrderDecode]
      cases env.Decoder _ <;>
        simp [primitiveDecode, decodeReflect, structuralDecode, unsupportedDecode]
    all_goals simp
  | array n l e =>
    rw [DecodeField, primitiveFirstOrderDecode]
    cases env.Decoder _ <;> cases e <;> (try rename_i en; cases en) <;>
      simp [primitiveDecode, decodeReflect, structuralDecode, unsupportedDecode]
  | slice n e =>
    by_cases hb : n = none ∧ e = .uint8 none
    · obtain ⟨rfl, rfl⟩ := hb
      rw [DecodeField, primitiveFirstOrderDecode]
      cases env.Decoder _ <;>
        simp [primitiveDecode, decodeReflect, structuralDecode, unsupportedDecode]
    · rw [DecodeField]
      · rw [primitiveFirstOrderDecode]
        cases env.Decoder _
        · cases n <;> cases e <;> (try rename_i en; cases en) <;>
            simp [primitiveDecode, decodeReflect, structuralDecode, unsupportedDecode] at hb ⊢
        · rfl
      · intro _ hn he _; exact hb ⟨hn, he⟩

/-- C3 (as stated, refuted). The registry of `byteRegistry` has an entry for the
built-in type `uint8`, yet `EncodeField` and `DecodeField` apply the primitive
rule to a `uint8`: one byte is written and read, not what the registry codec
writes and reads, and not what the claimed rule order gives. -/
theorem C3_counterexample :
    (∃ enc, byteRegistry.wellKnownEncoders (byteRegistry.canonicalizeWellKnown (.uint8 none))
          = some enc
        ∧ EncodeField byteRegistry (.uint8 none) 5 ≠ enc (.uint8 none) 5)
      ∧ claimedOrderEncode byteRegistry (.uint8 none) 5 = ⟨[0xAA, 0xAA], none⟩
      ∧ EncodeField byteRegistry (.uint8 none) 5 = ⟨[5], none⟩
      ∧ claimedOrderDecode byteRegistry (.uint8 none) 3 [7, 8, 9] = ⟨none, 0, [9]⟩
      ∧ DecodeField byteRegistry (.uint8 none) 3 [7, 8, 9] = ⟨none, 7, [8, 9]⟩ := by
  refine ⟨⟨fun _ _ => ⟨[0xAA, 0xAA], none⟩, rfl, by decide⟩, by decide, by decide, by decide,
    by decide⟩

/-- C3 (amended). `EncodeField` and `DecodeField` select the rule in the order
capability, then primitive (exact built-in type), then well-known registry,
then structural (array or slice), then failure; the first rule that matches
the type is the one applied. -/
theorem C3_rule_order (env : Env) (t : Ty) (item cur : t.denote) (r : Reader) :
    EncodeField env t item = primitiveFirstOrderEncode env t item
      ∧ DecodeField env t cur r = primitiveFirstOrderDecode env t cur r :=
  ⟨EncodeField_eq_order env t item, DecodeField_eq_order env t cur r⟩

/-! ## Capability precedence -/

/-- C4. Capability precedence at top level: when the item exposes `Encode`,
`EncodeField` is exactly the call of that method (same bytes written, same
error or success), whatever the registry holds and whatever the type is;
likewise `DecodeField` on a target exposing `Decode` is exactly the call of
that method. -/
theorem C4_capability_first (env : Env) (t u : Ty) (item : t.denote) (cur : u.denote)
    (r : Reader) (enc : t.denote → EncOut) (dec : u.denote → Reader → DecOut u.denote)
    (hE : env.Encoder t = some enc) (hD : env.Decoder (.ptr u) = some dec) :
    EncodeField env t item = enc item ∧ DecodeField env u cur r = dec cur r := by
  constructor
  · rw [EncodeField_eq_order, primitiveFirstOrderEncode]
    simp only [hE]
  · rw [DecodeField_eq_order, primitiveFirstOrderDecode]
    simp only [hD]

theorem C4_capability_first_witness :
    cafeEnv.Encoder cafe = some (fun _ => ⟨[0xca, 0xfe], none⟩)
      ∧ (cafeEnv.wellKnownEncoders (cafeEnv.canonicalizeWellKnown cafe)).isSome = true
      ∧ EncodeField cafeEnv cafe (0 : Nat) = ⟨[0xca, 0xfe], none⟩
      ∧ DecodeField cafeEnv (.struct "cafeEncodeDecoder") (0 : Nat) [0xca, 0xfe, 1]
          = ⟨none, 0, [1]⟩ :=
  ⟨rfl, rfl,
    C4_capability_first cafeEnv cafe (.struct "cafeEncodeDecoder") (0 : Nat) (0 : Nat)
      [0xca, 0xfe, 1] (fun _ => ⟨[0xca, 0xfe], none⟩)
      (fun cur r =>
        match ReadFull r 2 with
        | (.error e, r1) => ⟨some e, cur, r1⟩
        | (.ok _, r1) => ⟨none, cur, r1⟩)
      rfl rfl⟩

/-- C5 (the code at the failing input). `MyByte` exposes `Encode` and `Decode`.
In a slice the element methods are applied, but in an array of `MyByte` the
raw-byte branch runs instead: the two elements are written as the two raw
bytes, and decoding reads two raw bytes and then panics in `reflect.Copy`. -/
theorem C5_byte_array_skips_element_methods :
    (myByteEnv.Encoder myByte).isSome = true
      ∧ (myByteEnv.Decoder (.ptr myByte)).isSome = true
      ∧ EncodeField myByteEnv myByte (1 : Nat) = ⟨[0xAB, 1], none⟩
      ∧ EncodeField myByteEnv (.slice none myByte) [1, 2]
          = ⟨[0, 0, 0, 2, 0xAB, 1, 0xAB, 2], none⟩
      ∧ EncodeField myByteEnv (.array none 2 myByte) [1, 2] = ⟨[1, 2], none⟩
      ∧ DecodeField myByteEnv (.slice none myByte) [] [0, 0, 0, 2, 0xAB, 1, 0xAB, 2]
          = ⟨none, [1, 2], []⟩
      ∧ DecodeField myByteEnv (.array none 2 myByte) [0, 0] [0xAB, 1, 0xAB, 2]
          = ⟨some (.Panic "reflect.Copy: MyByte != uint8"), [0, 0], [0xAB, 2]⟩ := by
  refine ⟨rfl, rfl, by decide, by decide, by decide, by decide, by decide⟩

/-! ## Wire format of the primitive rules -/

theorem hex_names_byte (b : Nat) (h : b < 256) :
    hexValue (hex b) = some b ∧ (hex b).length = (if b < 16 then 1 else 2) := by
  interval_cases b <;> exact ⟨by decide, by decide⟩

/-- C6. Boolean strictness: `EncodeField` writes exactly the byte `0x01` for
true and `0x00` for false; `DecodeField` into a bool variable yields false for
the byte `0x00`, true for `0x01`, and for every other byte `b` fails with the
error "invalid boolean value: " followed by the text `hex b`, leaving the
variable as it was; exactly one byte is consumed in each case. The text
`hex b` names `b`: read as a lower-case hexadecimal numeral it denotes `b`,
and it has one digit below 16 and two digits otherwise. -/
theorem C6_bool_strict (env : Env) (cur : Bool) (b : Byte) (rest : List Byte) :
    EncodeField env (.bool none) true = ⟨[0x01], none⟩
      ∧ EncodeField env (.bool none) false = ⟨[0x00], none⟩
      ∧ DecodeField env (.bool none) cur (0x00 :: rest) = ⟨none, false, rest⟩
      ∧ DecodeField env (.bool none) cur (0x01 :: rest) = ⟨none, true, rest⟩
      ∧ (b ≠ 0x00 → b ≠ 0x01 →
          DecodeField env (.bool none) cur (b :: rest)
            = ⟨some (.New ("invalid boolean value: " ++ hex b)), cur, rest⟩)
      ∧ (b < 256 →
          hexValue (hex b) = some b ∧ (hex b).length = (if b < 16 then 1 else 2)) := by
  have hE : ∀ v, EncodeField env (.bool none) v
      = Write (if v then trueWire else falseWire) := by
    intro v
    rw [EncodeField_eq_order]
    simp [primitiveFirstOrderEncode, Env.Encoder, Ty.mayHaveMethods, Ty.isDefined,
      primitiveEncode]
  have hD : ∀ c x r, DecodeField env (.bool none) c (x :: r)
      = if x = 0x00 then ⟨none, false, r⟩
        else if x = 0x01 then ⟨none, true, r⟩
        else ⟨some (.New ("invalid boolean value: " ++ hex x)), c, r⟩ := by
    intro c x r
    rw [DecodeField_eq_order]
    simp [primitiveFirstOrderDecode, Env.Decoder, Ty.mayHaveMethods, Ty.isDefined,
      primitiveDecode, ReadFull]
  refine ⟨by simp [hE, Write, trueWire], by simp [hE, Write, falseWire], by simp [hD],
    by simp [hD], fun h0 h1 => ?_, fun hb => hex_names_byte b hb⟩
  rw [hD, if_neg h0, if_neg h1]

theorem C6_bool_strict_witness :
    (255 : Nat) ≠ 0x00 ∧ (255 : Nat) ≠ 0x01 ∧ (255 : Nat) < 256
      ∧ DecodeField Env.empty (.bool none) true [255, 7]
          = ⟨some (.New "invalid boolean value: ff"), true, [7]⟩
      ∧ hexValue (hex 255) = some 255 ∧ (hex 255).length = 2 :=
  ⟨by decide, by decide, by decide,
    (C6_bool_strict Env.empty true 255 [7]).2.2.2.2.1 (by decide) (by decide),
    (C6_bool_strict Env.empty true 255 [7]).2.2.2.2.2 (by decide)⟩

theorem PutUint32_big_endian (v : Nat) (h : v < 2 ^ 32) :
    (PutUint32 v).length = 4 ∧ bigEndianValue (PutUint32 v) = v
      ∧ ∀ b ∈ PutUint32 v, b < 256 := by
  refine ⟨rfl, ?_, ?_⟩
  · show v / 2 ^ 24 % 256 * 256 ^ 3 + (v / 2 ^ 16 % 256 * 256 ^ 2
      + (v / 2 ^ 8 % 256 * 256 ^ 1 + (v % 256 * 256 ^ 0 + 0))) = v
    omega
  · intro b hb
    simp only [PutUint32, List.mem_cons, List.mem_singleton, List.not_mem_nil, or_false] at hb
    rcases hb with rfl | rfl | rfl | rfl <;> exact Nat.mod_lt _ (by norm_num)

theorem EncodeField_bytes (env : Env) (bs : List Byte) :
    EncodeField env (.slice none (.uint8 none)) bs = encodeBytes bs
      ∧ EncodeField env (.string none) bs = encodeBytes bs := by
  constructor <;> rw [EncodeField_eq_order] <;>
    simp [primitiveFirstOrderEncode, Env.Encoder, Ty.mayHaveMethods, Ty.isDefined,
      primitiveEncode]

/-- C7. Length-prefixed bytes and text: for a byte sequence of length
`N ≤ MaxUint32`, `EncodeField` writes exactly `N + 4` bytes, the 4-byte
big-endian representation of `N` followed by the `N` bytes unchanged; a text
and the byte sequence of its bytes encode identically. -/
theorem C7_length_prefixed_bytes (env : Env) (bs : List Byte)
    (h : bs.length ≤ MaxUint32) :
    EncodeField env (.slice none (.uint8 none)) bs = ⟨PutUint32 bs.length ++ bs, none⟩
      ∧ EncodeField env (.string none) bs = EncodeField env (.slice none (.uint8 none)) bs
      ∧ (EncodeField env (.slice none (.uint8 none)) bs).written.length = bs.length + 4
      ∧ (PutUint32 bs.length).length = 4
      ∧ bigEndianValue (PutUint32 bs.length) = bs.length
      ∧ (∀ b ∈ PutUint32 bs.length, b < 256) := by
  have hlt : bs.length < 2 ^ 32 := by simp [MaxUint32] at h; omega
  have hB := (EncodeField_bytes env bs).1
  have hS := (EncodeField_bytes env bs).2
  have hw : encodeBytes bs = ⟨PutUint32 bs.length ++ bs, none⟩ := by
    simp [encodeBytes, Nat.not_lt.2 h, Write, EncOut.andThen]
  have hp := PutUint32_big_endian bs.length hlt
  refine ⟨by rw [hB, hw], by rw [hS, hB], ?_, hp.1, hp.2.1, hp.2.2⟩
  rw [hB, hw]
  simp [PutUint32]

theorem C7_length_prefixed_bytes_witness :
    [0x01, 0x02].length ≤ MaxUint32
      ∧ EncodeField Env.empty (.slice none (.uint8 none)) [0x01, 0x02]
          = ⟨[0x00, 0x00, 0x00, 0x02, 0x01, 0x02], none⟩
      ∧ EncodeField Env.empty (.string none) [0x01, 0x02]
          = EncodeField Env.empty (.slice none (.uint8 none)) [0x01, 0x02]
      ∧ EncodeField Env.empty (.string none)
          [0x68, 0x65, 0x6c, 0x6c, 0x6f, 0x20, 0x74, 0x68, 0x65, 0x72, 0x65]
          = ⟨[0, 0, 0, 0x0b, 0x68, 0x65, 0x6c, 0x6c, 0x6f, 0x20, 0x74, 0x68, 0x65, 0x72, 0x65],
              none⟩ :=
  ⟨by decide, (C7_length_prefixed_bytes Env.empty [0x01, 0x02] (by decide)).1,
    (C7_length_prefixed_bytes Env.empty [0x01, 0x02] (by decide)).2.1, by decide⟩

theorem EncodeField_uint (env : Env) (x : Nat) :
    EncodeField env (.uint8 none) x = Write [x]
      ∧ EncodeField env (.uint16 none) x = Write (PutUint16 x)
      ∧ EncodeField env (.uint32 none) x = Write (PutUint32 x)
      ∧ EncodeField env (.uint64 none) x = Write (PutUint64 x) := by
  refine ⟨?_, ?_, ?_, ?_⟩ <;> rw [EncodeField_eq_order] <;>
    simp [primitiveFirstOrderEncode, Env.Encoder, Ty.mayHaveMethods, Ty.isDefined,
      primitiveEncode]

theorem DecodeField_uint (env : Env) (cur : Nat) (r : Reader) :
    DecodeField env (.uint8 none) cur r
        = (match ReadFull r 1 with
          | (.error e, r1) => ⟨some e, cur, r1⟩
          | (.ok b, r1) => ⟨none, b.getD 0 0, r1⟩)
      ∧ DecodeField env (.uint16 none) cur r
        = (match ReadFull r 2 with
          | (.error e, r1) => ⟨some e, cur, r1⟩
          | (.ok b, r1) => ⟨none, Uint16 b, r1⟩)
      ∧ DecodeField env (.uint32 none) cur r
        = (match ReadFull r 4 with
          | (.error e, r1) => ⟨some e, cur, r1⟩
          | (.ok b, r1) => ⟨none, Uint32 b, r1⟩)
      ∧ DecodeField env (.uint64 none) cur r
        = (match ReadFull r 8 with
          | (.error e, r1) => ⟨some e, cur, r1⟩
          | (.ok b, r1) => ⟨none, Uint64 b, r1⟩) := by
  refine ⟨?_, ?_, ?_, ?_⟩ <;> rw [DecodeField_eq_order] <;>
    simp [primitiveFirstOrderDecode, Env.Decoder, Ty.mayHaveMethods, Ty.isDefined,
      primitiveDecode]

/-- C8. Unsigned integers: for `N` in 8, 16, 32, 64 and every `x < 2 ^ N`,
`EncodeField` writes exactly `N / 8` bytes whose big-endian value (most
significant byte first) is `x`, and `DecodeField` of any `N / 8` bytes yields
the big-endian value of those bytes and consumes nothing else. -/
theorem C8_unsigned_big_endian (env : Env) (x cur : Nat) (bs rest : List Nat)
    (hbs : ∀ b ∈ bs, b < 256) :
    (x < 2 ^ 8 → EncodesBigEndian (EncodeField env (.uint8 none) x) 1 x)
      ∧ (x < 2 ^ 16 → EncodesBigEndian (EncodeField env (.uint16 none) x) 2 x)
      ∧ (x < 2 ^ 32 → EncodesBigEndian (EncodeField env (.uint32 none) x) 4 x)
      ∧ (x < 2 ^ 64 → EncodesBigEndian (EncodeField env (.uint64 none) x) 8 x)
      ∧ (bs.length = 1 →
          DecodeField env (.uint8 none) cur (bs ++ rest) = ⟨none, bigEndianValue bs, rest⟩)
      ∧ (bs.length = 2 →
          DecodeField env (.uint16 none) cur (bs ++ rest) = ⟨none, bigEndianValue bs, rest⟩)
      ∧ (bs.length = 4 →
          DecodeField env (.uint32 none) cur (bs ++ rest) = ⟨none, bigEndianValue bs, rest⟩)
      ∧ (bs.length = 8 →
          DecodeField env (.uint64 none) cur (bs ++ rest) = ⟨none, bigEndianValue bs, rest⟩) := by
  obtain ⟨e8, e16, e32, e64⟩ := EncodeField_uint env x
  obtain ⟨d8, d16, d32, d64⟩ := DecodeField_uint env cur (bs ++ rest)
  refine ⟨fun h => ?_, fun h => ?_, fun h => ?_, fun h => ?_, fun h => ?_, fun h => ?_,
    fun h => ?_, fun h => ?_⟩
  · rw [e8]
    refine ⟨rfl, rfl, ?_, ?_⟩
    · simp [Write, bigEndianValue]
    · intro b hb
      have hbx : b = x := by simpa [Write] using hb
      rw [hbx]
      exact h
  · rw [e16]
    refine ⟨rfl, rfl, ?_, ?_⟩
    · show x / 2 ^ 8 % 256 * 256 ^ 1 + (x % 256 * 256 ^ 0 + 0) = x
      omega
    · intro b hb
      simp only [Write, PutUint16, List.mem_cons, List.mem_singleton, List.not_mem_nil,
        or_false] at hb
      rcases hb with rfl | rfl <;> exact Nat.mod_lt _ (by norm_num)
  · rw [e32]
    exact ⟨rfl, PutUint32_big_endian x h⟩
  · rw [e64]
    refine ⟨rfl, rfl, ?_, ?_⟩
    · show x / 2 ^ 56 % 256 * 256 ^ 7 + (x / 2 ^ 48 % 256 * 256 ^ 6
        + (x / 2 ^ 40 % 256 * 256 ^ 5 + (x / 2 ^ 32 % 256 * 256 ^ 4
        + (x / 2 ^ 24 % 256 * 256 ^ 3 + (x / 2 ^ 16 % 256 * 256 ^ 2
        + (x / 2 ^ 8 % 256 * 256 ^ 1 + (x % 256 * 256 ^ 0 + 0))))))) = x
      omega
    · intro b hb
      simp only [Write, PutUint64, List.mem_cons, List.mem_singleton, List.not_mem_nil,
        or_false] at hb
      rcases hb with rfl | rfl | rfl | rfl | rfl | rfl | rfl | rfl <;>
        exact Nat.mod_lt _ (by norm_num)
  · rw [d8, ReadFull_append _ _ _ h]
    match bs, h with
    | [b0], _ => simp [bigEndianValue]
  · rw [d16, ReadFull_append _ _ _ h]
    match bs, h, hbs with
    | [b0, b1], _, hbs =>
      have h0 := hbs b0 (by simp)
      have h1 := hbs b1 (by simp)
      have hv : Uint16 [b0, b1] = bigEndianValue [b0, b1] := by
        show (b0 * 2 ^ 8 + b1) % 2 ^ 16 = b0 * 256 ^ 1 + (b1 * 256 ^ 0 + 0)
        omega
      simp only [hv]
  · rw [d32, ReadFull_append _ _ _ h]
    match bs, h, hbs with
    | [b0, b1, b2, b3], _, hbs =>
      have h0 := hbs b0 (by simp)
      have h1 := hbs b1 (by simp)
      have h2 := hbs b2 (by simp)
      have h3 := hbs b3 (by simp)
      have hv : Uint32 [b0, b1, b2, b3] = bigEndianValue [b0, b1, b2, b3] := by
        show (b0 * 2 ^ 24 + b1 * 2 ^ 16 + b2 * 2 ^ 8 + b3) % 2 ^ 32
          = b0 * 256 ^ 3 + (b1 * 256 ^ 2 + (b2 * 256 ^ 1 + (b3 * 256 ^ 0 + 0)))
        omega
      simp only [hv]
  · rw [d64, ReadFull_append _ _ _ h]
    match bs, h, hbs with
    | [b0, b1, b2, b3, b4, b5, b6, b7], _, hbs =>
      have h0 := hbs b0 (by simp)
      have h1 := hbs b1 (by simp)
      have h2 := hbs b2 (by simp)
      have h3 := hbs b3 (by simp)
      have h4 := hbs b4 (by simp)
      have h5 := hbs b5 (by simp)
      have h6 := hbs b6 (by simp)
      have h7 := hbs b7 (by simp)
      have hv : Uint64 [b0, b1, b2, b3, b4, b5, b6, b7]
          = bigEndianValue [b0, b1, b2, b3, b4, b5, b6, b7] := by
        show (b0 * 2 ^ 56 + b1 * 2 ^ 48 + b2 * 2 ^ 40 + b3 * 2 ^ 32 + b4 * 2 ^ 24
            + b5 * 2 ^ 16 + b6 * 2 ^ 8 + b7) % 2 ^ 64
          = b0 * 256 ^ 7 + (b1 * 256 ^ 6 + (b2 * 256 ^ 5 + (b3 * 256 ^ 4 + (b4 * 256 ^ 3
            + (b5 * 256 ^ 2 + (b6 * 256 ^ 1 + (b7 * 256 ^ 0 + 0)))))))
        omega
      simp only [hv]

theorem C8_unsigned_big_endian_witness :
    (∀ b ∈ [0xff, 0xff], b < 256) ∧ 65535 < 2 ^ 16
      ∧ EncodesBigEndian (EncodeField Env.empty (.uint16 none) (65535 : Nat)) 2 65535
      ∧ [0xff, 0xff].length = 2
      ∧ DecodeField Env.empty (.uint16 none) (0 : Nat) ([0xff, 0xff] ++ [1])
          = ⟨none, bigEndianValue [0xff, 0xff], [1]⟩
      ∧ EncodeFields Env.empty [⟨.uint16 none, (0 : Nat)⟩, ⟨.uint16 none, (65535 : Nat)⟩]
          = ⟨[0x00, 0x00, 0xff, 0xff], none⟩ :=
  ⟨by decide, by decide,
    (C8_unsigned_big_endian Env.empty 65535 0 [0xff, 0xff] [1] (by decide)).2.1 (by decide),
    rfl,
    (C8_unsigned_big_endian Env.empty 65535 0 [0xff, 0xff] [1] (by decide)).2.2.2.2.2.1 rfl,
    by decide⟩

/-! ## Wire format of the structural rules -/

theorem flatten_map_singleton (xs : List Nat) :
    (xs.map (fun x => [x])).flatten = xs := by
  induction xs with
  | nil => rfl
  | cons x xs ih => simp [ih]

theorem EncodeField_slice_structural (env : Env) (n : Option String) (e : Ty)
    (xs : List e.denote) (hb : ¬(n = none ∧ e = .uint8 none))
    (hcap : env.Encoder (.slice n e) = none)
    (hreg : env.wellKnownEncoders (env.canonicalizeWellKnown (.slice n e)) = none) :
    EncodeField env (.slice n e) xs
      = if xs.length > MaxUint32 then
          ⟨[], some (.New "number of array elements too large to encode")⟩
        else (Write (PutUint32 xs.length)).andThen (encodeElems (EncodeField env e) xs) := by
  rw [EncodeField_eq_order, primitiveFirstOrderEncode]
  simp only [hcap]
  cases n <;> cases e <;> (try rename_i en; cases en) <;>
    simp [primitiveEncode, structuralEncode, hreg] at hb ⊢

theorem EncodeField_array_structural (env : Env) (n : Option String) (l : Nat) (e : Ty)
    (xs : List e.denote) (he : e.Kind ≠ .Uint8)
    (hcap : env.Encoder (.array n l e) = none)
    (hreg : env.wellKnownEncoders (env.canonicalizeWellKnown (.array n l e)) = none) :
    EncodeField env (.array n l e) xs = encodeElems (EncodeField env e) xs := by
  rw [EncodeField_eq_order, primitiveFirstOrderEncode]
  simp only [hcap]
  cases e <;> simp [primitiveEncode, structuralEncode, hreg, Ty.Kind] at he ⊢

theorem EncodeField_array_bytes (env : Env) (n : Option String) (l : Nat)
    (en : Option String) (bs : List Byte)
    (hcap : env.Encoder (.array n l (.uint8 en)) = none)
    (hreg : env.wellKnownEncoders (env.canonicalizeWellKnown (.array n l (.uint8 en))) = none) :
    EncodeField env (.array n l (.uint8 en)) bs = ⟨bs, none⟩ := by
  rw [EncodeField_eq_order, primitiveFirstOrderEncode]
  simp [hcap, primitiveEncode, structuralEncode, hreg, Write]

/-- C9. Variable-length sequence wire format: for a sequence type to which the
structural rule applies (no `Encode` method and no registry entry of its own)
and every sequence of `n ≤ MaxUint32` elements that each encode successfully,
`EncodeField` succeeds and writes the 4-byte big-endian representation of `n`
followed by the concatenation, in index order, of the `EncodeField` encodings
of the elements. -/
theorem C9_slice_wire_format (env : Env) (n : Option String) (e : Ty) (xs : List e.denote)
    (hcap : env.Encoder (.slice n e) = none)
    (hreg : env.wellKnownEncoders (env.canonicalizeWellKnown (.slice n e)) = none)
    (hlen : xs.length ≤ MaxUint32)
    (hok : ∀ x ∈ xs, (EncodeField env e x).err = none) :
    EncodeField env (.slice n e) xs
        = ⟨PutUint32 xs.length ++ (xs.map (fun x => (EncodeField env e x).written)).flatten,
            none⟩
      ∧ (PutUint32 xs.length).length = 4
      ∧ bigEndianValue (PutUint32 xs.length) = xs.length
      ∧ (∀ b ∈ PutUint32 xs.length, b < 256) := by
  have hlt : xs.length < 2 ^ 32 := by simp [MaxUint32] at hlen; omega
  have hp := PutUint32_big_endian xs.length hlt
  refine ⟨?_, hp.1, hp.2.1, hp.2.2⟩
  by_cases hb : n = none ∧ e = .uint8 none
  · obtain ⟨rfl, rfl⟩ := hb
    rw [(EncodeField_bytes env xs).1]
    have hel : (fun x => (EncodeField env (.uint8 none) x).written) = fun x => [x] := by
      funext x
      rw [(EncodeField_uint env x).1]
      rfl
    rw [hel, flatten_map_singleton]
    simp [encodeBytes, Nat.not_lt.2 hlen, Write, EncOut.andThen]
  · rw [EncodeField_slice_structural env n e xs hb hcap hreg, if_neg (Nat.not_lt.2 hlen),
      encodeElems_ok _ _ hok]
    simp [Write, EncOut.andThen]

theorem C9_slice_wire_format_witness :
    Env.empty.Encoder (.slice none (.string none)) = none
      ∧ Env.empty.wellKnownEncoders
          (Env.empty.canonicalizeWellKnown (.slice none (.string none))) = none
      ∧ [[0x74, 0x65, 0x73, 0x74, 0x69, 0x6e, 0x67],
          [0x74, 0x65, 0x73, 0x74, 0x69, 0x6e, 0x67]].length ≤ MaxUint32
      ∧ EncodeField Env.empty (.slice none (.string none))
          [[0x74, 0x65, 0x73, 0x74, 0x69, 0x6e, 0x67], [0x74, 0x65, 0x73, 0x74, 0x69, 0x6e, 0x67]]
        = ⟨[0x00, 0x00, 0x00, 0x02,
            0x00, 0x00, 0x00, 0x07, 0x74, 0x65, 0x73, 0x74, 0x69, 0x6e, 0x67,
            0x00, 0x00, 0x00, 0x07, 0x74, 0x65, 0x73, 0x74, 0x69, 0x6e, 0x67], none⟩ :=
  ⟨rfl, rfl, by decide,
    (C9_slice_wire_format Env.empty none (.string none)
      [[0x74, 0x65, 0x73, 0x74, 0x69, 0x6e, 0x67], [0x74, 0x65, 0x73, 0x74, 0x69, 0x6e, 0x67]]
      rfl rfl (by decide) (by decide)).1⟩

/-- C10. Fixed-size array wire format: for an array type to which the structural
rule applies (no `Encode` method and no registry entry of its own),
`EncodeField` writes no length: when the element type is a single byte (kind
`Uint8`) the output is exactly the `L` raw bytes, and otherwise, the elements
each encoding successfully, it is the concatenation in index order of the
`EncodeField` encodings of the elements. -/
theorem C10_array_wire_format (env : Env) (n m en : Option String) (lb l : Nat)
    (bs : List Byte) (e : Ty) (xs : List e.denote)
    (hbs : bs.length = lb)
    (hcapB : env.Encoder (.array m lb (.uint8 en)) = none)
    (hregB : env.wellKnownEncoders (env.canonicalizeWellKnown (.array m lb (.uint8 en)))
      = none)
    (he : e.Kind ≠ .Uint8)
    (hcap : env.Encoder (.array n l e) = none)
    (hreg : env.wellKnownEncoders (env.canonicalizeWellKnown (.array n l e)) = none)
    (hok : ∀ x ∈ xs, (EncodeField env e x).err = none) :
    EncodeField env (.array m lb (.uint8 en)) bs = ⟨bs, none⟩
      ∧ (EncodeField env (.array m lb (.uint8 en)) bs).written.length = lb
      ∧ EncodeField env (.array n l e) xs
          = ⟨(xs.map (fun x => (EncodeField env e x).written)).flatten, none⟩ := by
  have hB := EncodeField_array_bytes env m lb en bs hcapB hregB
  refine ⟨hB, by rw [hB]; exact hbs, ?_⟩
  rw [EncodeField_array_structural env n l e xs he hcap hreg, encodeElems_ok _ _ hok]

theorem C10_array_wire_format_witness :
    (0x00 :: 0xff :: List.replicate 30 0x00).length = 32
      ∧ Env.empty.Encoder (.array none 32 (.uint8 none)) = none
      ∧ Env.empty.wellKnownEncoders
          (Env.empty.canonicalizeWellKnown (.array none 32 (.uint8 none))) = none
      ∧ (Ty.string none).Kind ≠ .Uint8
      ∧ Env.empty.Encoder (.array none 2 (.string none)) = none
      ∧ Env.empty.wellKnownEncoders
          (Env.empty.canonicalizeWellKnown (.array none 2 (.string none))) = none
      ∧ EncodeField Env.empty (.array none 32 (.uint8 none))
            (0x00 :: 0xff :: List.replicate 30 0x00)
          = ⟨0x00 :: 0xff :: List.replicate 30 0x00, none⟩
      ∧ EncodeField Env.empty (.array none 2 (.string none))
            [[0x74, 0x65, 0x73, 0x74, 0x69, 0x6e, 0x67],
              [0x74, 0x65, 0x73, 0x74, 0x69, 0x6e, 0x67]]
          = ⟨[0x00, 0x00, 0x00, 0x07, 0x74, 0x65, 0x73, 0x74, 0x69, 0x6e, 0x67,
              0x00, 0x00, 0x00, 0x07, 0x74, 0x65, 0x73, 0x74, 0x69, 0x6e, 0x67], none⟩ :=
  have h := C10_array_wire_format Env.empty none none none 32 2
    (0x00 :: 0xff :: List.replicate 30 0x00) (.string none)
    [[0x74, 0x65, 0x73, 0x74, 0x69, 0x6e, 0x67], [0x74, 0x65, 0x73, 0x74, 0x69, 0x6e, 0x67]]
    rfl rfl rfl (by decide) rfl rfl (by decide)
  ⟨rfl, rfl, rfl, by decide, rfl, rfl, h.1, h.2.2⟩

/-! ## Overflow guard -/

/-- C11. Overflow guard: for every byte sequence, text or (structurally encoded)
sequence whose length or element count exceeds `MaxUint32`, `EncodeField` fails
with the "too large to encode" error and writes no byte at all. -/
theorem C11_overflow_guard (env : Env) (bs : List Byte) (n : Option String) (e : Ty)
    (xs : List e.denote)
    (hbs : bs.length > MaxUint32) (hxs : xs.length > MaxUint32)
    (hcap : env.Encoder (.slice n e) = none)
    (hreg : env.wellKnownEncoders (env.canonicalizeWellKnown (.slice n e)) = none) :
    EncodeField env (.slice none (.uint8 none)) bs
        = ⟨[], some (.New "variable-length field too large to encode")⟩
      ∧ EncodeField env (.string none) bs
        = ⟨[], some (.New "variable-length field too large to encode")⟩
      ∧ EncodeField env (.slice n e) xs
        = ⟨[], some (.New (if (Ty.slice n e).isBuiltin
            then "variable-length field too large to encode"
            else "number of array elements too large to encode"))⟩ := by
  have hB := EncodeField_bytes env bs
  have hw : encodeBytes bs = ⟨[], some (.New "variable-length field too large to encode")⟩ := by
    simp [encodeBytes, hbs]
  refine ⟨by rw [hB.1, hw], by rw [hB.2, hw], ?_⟩
  by_cases hb : n = none ∧ e = .uint8 none
  · obtain ⟨rfl, rfl⟩ := hb
    rw [(EncodeField_bytes env xs).1]
    simp [encodeBytes, hxs, Ty.isBuiltin]
  · rw [EncodeField_slice_structural env n e xs hb hcap hreg, if_pos hxs]
    have hnb : (Ty.slice n e).isBuiltin = false := by
      cases n <;> cases e <;> (try rename_i en; cases en) <;> simp [Ty.isBuiltin] at hb ⊢
    simp [hnb]

theorem C11_overflow_guard_witness :
    (List.replicate 4294967296 (0 : Nat)).length > MaxUint32
      ∧ (List.replicate 4294967296 ([] : List Byte)).length > MaxUint32
      ∧ Env.empty.Encoder (.slice none (.string none)) = none
      ∧ Env.empty.wellKnownEncoders
          (Env.empty.canonicalizeWellKnown (.slice none (.string none))) = none
      ∧ EncodeField Env.empty (.slice none (.uint8 none)) (List.replicate 4294967296 (0 : Nat))
        = ⟨[], some (.New "variable-length field too large to encode")⟩
      ∧ EncodeField Env.empty (.slice none (.string none))
          (List.replicate 4294967296 ([] : List Byte))
        = ⟨[], some (.New "number of array elements too large to encode")⟩ :=
  have h := C11_overflow_guard Env.empty (List.replicate 4294967296 (0 : Nat)) none
    (.string none) (List.replicate 4294967296 ([] : List Byte))
    (by rw [List.length_replicate]; decide) (by rw [List.length_replicate]; decide) rfl rfl
  ⟨by rw [List.length_replicate]; decide, by rw [List.length_replicate]; decide, rfl, rfl,
    h.1, h.2.2⟩

/-! ## Batch calls -/

theorem andThen_assoc (a b c : EncOut) :
    (a.andThen b).andThen c = a.andThen (b.andThen c) := by
  cases ha : a.err <;> cases hb : b.err <;> simp [EncOut.andThen, ha, hb]

theorem encodeElems_append {α : Type} (enc : α → EncOut) (xs ys : List α) :
    encodeElems enc (xs ++ ys) = (encodeElems enc xs).andThen (encodeElems enc ys) := by
  induction xs with
  | nil => simp [encodeElems, EncOut.andThen]
  | cons x xs ih =>
    rw [List.cons_append, encodeElems, encodeElems, ih, andThen_assoc]

theorem encodeElems_fail {α : Type} (enc : α → EncOut) (pre post : List α) (bad : α)
    (e : Error) (hpre : ∀ x ∈ pre, (enc x).err = none) (hbad : (enc bad).err = some e) :
    encodeElems enc (pre ++ bad :: post)
      = ⟨(pre.map (fun x => (enc x).written)).flatten ++ (enc bad).written, some e⟩ := by
  rw [encodeElems_append, encodeElems_ok enc pre hpre]
  simp [encodeElems, EncOut.andThen, hbad]

/-- C12. Batch success: when every value of a list encodes successfully,
`EncodeFields` succeeds and writes exactly the concatenation, in argument
order, of what `EncodeField` writes for each value alone; for two such lists,
`EncodeFields` of their concatenation writes the output of the first followed
by the output of the second. -/
theorem C12_batch_success (env : Env) (xs ys : List Item)
    (hxs : ∀ item ∈ xs, (EncodeField env item.ty item.val).err = none)
    (hys : ∀ item ∈ ys, (EncodeField env item.ty item.val).err = none) :
    EncodeFields env xs
        = ⟨(xs.map (fun item => (EncodeField env item.ty item.val).written)).flatten, none⟩
      ∧ EncodeFields env (xs ++ ys)
        = ⟨(EncodeFields env xs).written ++ (EncodeFields env ys).written, none⟩ := by
  have h1 := encodeElems_ok (fun item : Item => EncodeField env item.ty item.val) xs hxs
  have h2 := encodeElems_ok (fun item : Item => EncodeField env item.ty item.val) ys hys
  refine ⟨h1, ?_⟩
  simp only [EncodeFields] at *
  rw [encodeElems_append, h1, h2]
  simp [EncOut.andThen]

theorem decodeFields_append (env : Env) (pre post : List Item) (r : Reader) :
    DecodeFields env (pre ++ post) r
      = match DecodeFields env pre r with
        | ⟨some e, done, r1⟩ => ⟨some e, done ++ post, r1⟩
        | ⟨none, done, r1⟩ =>
          let out := DecodeFields env post r1
          ⟨out.err, done ++ out.slot, out.rest⟩ := by
  induction pre generalizing r with
  | nil =>
    rcases h : DecodeFields env post r with ⟨e, done, r1⟩
    simp [DecodeFields, h]
  | cons item pre ih =>
    simp only [List.cons_append, DecodeFields]
    rcases hd : DecodeField env item.ty item.val r with ⟨_ | e, x, r1⟩
    · rcases hp : DecodeFields env pre r1 with ⟨_ | e2, done, r2⟩
      · simp [ih r1, hp]
      · simp [ih r1, hp]
    · simp

theorem C12_batch_success_witness :
    (∀ item ∈ [(⟨.bool none, true⟩ : Item), ⟨.bool none, false⟩, ⟨.uint8 none, (0 : Nat)⟩],
        (EncodeField Env.empty item.ty item.val).err = none)
      ∧ (∀ item ∈ [(⟨.uint16 none, (65535 : Nat)⟩ : Item),
            ⟨.slice none (.uint8 none), [0x01, 0x02]⟩],
          (EncodeField Env.empty item.ty item.val).err = none)
      ∧ EncodeFields Env.empty
          ([(⟨.bool none, true⟩ : Item), ⟨.bool none, false⟩, ⟨.uint8 none, (0 : Nat)⟩]
            ++ [(⟨.uint16 none, (65535 : Nat)⟩ : Item), ⟨.slice none (.uint8 none), [0x01, 0x02]⟩])
        = ⟨[0x01, 0x00, 0x00] ++ [0xff, 0xff, 0x00, 0x00, 0x00, 0x02, 0x01, 0x02], none⟩ :=
  ⟨by decide, by decide,
    (C12_batch_success Env.empty
      [(⟨.bool none, true⟩ : Item), ⟨.bool none, false⟩, ⟨.uint8 none, (0 : Nat)⟩]
      [(⟨.uint16 none, (65535 : Nat)⟩ : Item), ⟨.slice none (.uint8 none), [0x01, 0x02]⟩]
      (by decide) (by decide)).2⟩

/-- C13. Batch abort: when the value at some index is the first whose encoding
fails, `EncodeFields` returns exactly that error and has written the encodings
of the values before it followed by whatever the failing call wrote; the result
is the same whatever values follow, which are never encoded. `DecodeFields`
likewise: it returns the error of the first failing target, the targets after
it are left as they were, the stream is where the failing call left it, and
neither depends on the targets that follow. -/
theorem C13_batch_abort (env : Env) (pre post post2 : List Item) (bad : Item) (e : Error)
    (spre spost spost2 done : List Item) (sbad : Item) (x : sbad.ty.denote) (e2 : Error)
    (r r1 r2 : Reader)
    (hpre : ∀ item ∈ pre, (EncodeField env item.ty item.val).err = none)
    (hbad : (EncodeField env bad.ty bad.val).err = some e)
    (hspre : DecodeFields env spre r = ⟨none, done, r1⟩)
    (hsbad : DecodeField env sbad.ty sbad.val r1 = ⟨some e2, x, r2⟩) :
    EncodeFields env (pre ++ bad :: post)
        = ⟨(pre.map (fun item => (EncodeField env item.ty item.val).written)).flatten
            ++ (EncodeField env bad.ty bad.val).written, some e⟩
      ∧ EncodeFields env (pre ++ bad :: post) = EncodeFields env (pre ++ bad :: post2)
      ∧ DecodeFields env (spre ++ sbad :: spost) r
        = ⟨some e2, done ++ ⟨sbad.ty, x⟩ :: spost, r2⟩
      ∧ (DecodeFields env (spre ++ sbad :: spost) r).err
          = (DecodeFields env (spre ++ sbad :: spost2) r).err
      ∧ (DecodeFields env (spre ++ sbad :: spost) r).rest
          = (DecodeFields env (spre ++ sbad :: spost2) r).rest := by
  have hE : ∀ p, EncodeFields env (pre ++ bad :: p)
      = ⟨(pre.map (fun item => (EncodeField env item.ty item.val).written)).flatten
          ++ (EncodeField env bad.ty bad.val).written, some e⟩ := fun p =>
    encodeElems_fail (fun item : Item => EncodeField env item.ty item.val) pre p bad e hpre hbad
  have hD : ∀ p, DecodeFields env (spre ++ sbad :: p) r
      = ⟨some e2, done ++ ⟨sbad.ty, x⟩ :: p, r2⟩ := by
    intro p
    rw [decodeFields_append, hspre]
    simp [DecodeFields, hsbad]
  refine ⟨hE post, by rw [hE post, hE post2], hD spost, by rw [hD spost, hD spost2],
    by rw [hD spost, hD spost2]⟩

theorem C13_batch_abort_witness :
    (∀ item ∈ [(⟨.uint8 none, (1 : Nat)⟩ : Item)],
        (EncodeField Env.empty item.ty item.val).err = none)
      ∧ (EncodeField Env.empty (.slice none emptyStruct) [0]).err
          = some (.New "type struct \x7b\x7d cannot be encoded")
      ∧ DecodeFields Env.empty [(⟨.uint8 none, (0 : Nat)⟩ : Item)] [7, 2, 9]
          = ⟨none, [⟨.uint8 none, (7 : Nat)⟩], [2, 9]⟩
      ∧ DecodeField Env.empty (.bool none) false [2, 9]
          = ⟨some (.New "invalid boolean value: 2"), false, [9]⟩
      ∧ EncodeFields Env.empty
          ([(⟨.uint8 none, (1 : Nat)⟩ : Item)]
            ++ ⟨.slice none emptyStruct, [0]⟩ :: [⟨.uint8 none, (2 : Nat)⟩])
        = ⟨[0x01] ++ [0x00, 0x00, 0x00, 0x01],
            some (.New "type struct \x7b\x7d cannot be encoded")⟩
      ∧ DecodeFields Env.empty
          ([(⟨.uint8 none, (0 : Nat)⟩ : Item)]
            ++ ⟨.bool none, false⟩ :: [⟨.uint8 none, (5 : Nat)⟩]) [7, 2, 9]
        = ⟨some (.New "invalid boolean value: 2"),
            [⟨.uint8 none, (7 : Nat)⟩] ++ ⟨.bool none, false⟩ :: [⟨.uint8 none, (5 : Nat)⟩],
            [9]⟩ :=
  have h := C13_batch_abort Env.empty [(⟨.uint8 none, (1 : Nat)⟩ : Item)]
    [⟨.uint8 none, (2 : Nat)⟩] [] ⟨.slice none emptyStruct, [0]⟩
    (.New "type struct \x7b\x7d cannot be encoded")
    [(⟨.uint8 none, (0 : Nat)⟩ : Item)] [⟨.uint8 none, (5 : Nat)⟩] []
    [⟨.uint8 none, (7 : Nat)⟩] ⟨.bool none, false⟩ false (.New "invalid boolean value: 2")
    [7, 2, 9] [2, 9] [9] (by decide) (by decide) rfl rfl
  ⟨by decide, by decide, rfl, rfl, h.1, h.2.2.1⟩

/-! ## Failures -/

/-- C14. Unsupported type: for every value whose type has no `Encode` method, no
registry entry, is not a built-in primitive type and is neither an array nor a
slice, `EncodeField` fails with the error "type T cannot be encoded", `T` being
the name of the type, and writes no bytes; `DecodeField` into a variable of
such a type fails with "type *T cannot be decoded", leaves the variable as it
was and consumes no bytes. -/
theorem C14_unsupported_type (env : Env) (t : Ty) (v cur : t.denote) (r : Reader)
    (hcapE : env.Encoder t = none)
    (hregE : env.wellKnownEncoders (env.canonicalizeWellKnown t) = none)
    (hcapD : env.Decoder (.ptr t) = none)
    (hregD : env.wellKnownDecoders (env.canonicalizeWellKnown t) = none)
    (hb : t.isBuiltin = false) (hA : t.Kind ≠ .Array) (hS : t.Kind ≠ .Slice) :
    EncodeField env t v
        = ⟨[], some (.New ("type " ++ t.typeName ++ " cannot be encoded"))⟩
      ∧ DecodeField env t cur r
        = ⟨some (.New ("type " ++ ("*" ++ t.typeName) ++ " cannot be decoded")), cur, r⟩ := by
  constructor
  · rw [EncodeField_eq_order, primitiveFirstOrderEncode]
    simp only [hcapE, hregE]
    cases t <;> (try rename_i n; cases n) <;>
      simp [primitiveEncode, structuralEncode, unsupportedEncode, Ty.isBuiltin, Ty.Kind]
        at hb hA hS ⊢
  · rw [DecodeField_eq_order, primitiveFirstOrderDecode]
    simp only [hcapD, hregD]
    cases t <;> (try rename_i n; cases n) <;>
      simp [primitiveDecode, structuralDecode, unsupportedDecode, Ty.isBuiltin, Ty.Kind,
        Ty.typeName] at hb hA hS ⊢

theorem C14_unsupported_type_witness :
    Env.empty.Encoder (.ptr emptyStruct) = none
      ∧ Env.empty.wellKnownEncoders (Env.empty.canonicalizeWellKnown (.ptr emptyStruct)) = none
      ∧ Env.empty.Decoder (.ptr emptyStruct) = none
      ∧ Env.empty.wellKnownDecoders (Env.empty.canonicalizeWellKnown emptyStruct) = none
      ∧ emptyStruct.isBuiltin = false ∧ emptyStruct.Kind ≠ .Array ∧ emptyStruct.Kind ≠ .Slice
      ∧ EncodeField Env.empty emptyStruct (0 : Nat)
        = ⟨[], some (.New "type struct \x7b\x7d cannot be encoded")⟩
      ∧ EncodeField Env.empty (.ptr emptyStruct) (0 : Nat)
        = ⟨[], some (.New "type *struct \x7b\x7d cannot be encoded")⟩
      ∧ DecodeField Env.empty emptyStruct (0 : Nat) [1, 2, 3]
        = ⟨some (.New "type *struct \x7b\x7d cannot be decoded"), 0, [1, 2, 3]⟩ :=
  ⟨rfl, rfl, rfl, rfl, rfl, by decide, by decide,
    (C14_unsupported_type Env.empty emptyStruct (0 : Nat) (0 : Nat) [1, 2, 3]
      rfl rfl rfl rfl rfl (by decide) (by decide)).1,
    (C14_unsupported_type Env.empty (.ptr emptyStruct) (0 : Nat) (0 : Nat) [1, 2, 3]
      rfl rfl rfl rfl rfl (by decide) (by decide)).1,
    (C14_unsupported_type Env.empty emptyStruct (0 : Nat) (0 : Nat) [1, 2, 3]
      rfl rfl rfl rfl rfl (by decide) (by decide)).2⟩

/-- C15. Invalid decode target: for every decode target that is a plain value (its
type is not a pointer type and has no `Decode` method), `DecodeField` fails with
the error "can only decode into pointer types" and consumes no bytes, whatever
the stream holds. -/
theorem C15_invalid_target (env : Env) (t : Ty) (item : t.denote) (r : Reader)
    (hk : t.Kind ≠ .Ptr) (hcap : env.Decoder t = none) :
    DecodeFieldItem env t item r
      = ⟨some (.New "can only decode into pointer types"), item, r⟩ := by
  cases t <;> simp [DecodeFieldItem, DecodeFieldNonPtr, hcap, Ty.Kind] at hk ⊢

theorem C15_invalid_target_witness :
    (Ty.uint32 none).Kind ≠ .Ptr ∧ Env.empty.Decoder (.uint32 none) = none
      ∧ DecodeFieldItem Env.empty (.uint32 none) (7 : Nat) [0, 0, 0, 1]
        = ⟨some (.New "can only decode into pointer types"), 7, [0, 0, 0, 1]⟩
      ∧ DecodeFieldItem Env.empty (.ptr (.uint32 none)) (7 : Nat) [0, 0, 0, 1] = ⟨none, 1, []⟩ :=
  ⟨by decide, rfl,
    C15_invalid_target Env.empty (.uint32 none) (7 : Nat) [0, 0, 0, 1] (by decide) rfl,
    by decide⟩

/-! ## Short streams -/

theorem ReadFull_short (r : Reader) (n : Nat) (h : r.length < n) :
    ReadFull r n = (.error (if r = [] then .EOF else .ErrUnexpectedEOF), []) := by
  cases r with
  | nil =>
    have hn : n ≠ 0 := by simp at h; omega
    simp [ReadFull, hn]
  | cons b bs =>
    have hn : ¬ (n ≤ bs.length + 1) := by simp at h; omega
    simp [ReadFull, hn]

theorem ReadFull_ok_iff (r r1 b : List Byte) (n : Nat) :
    ReadFull r n = (.ok b, r1) ↔ n ≤ r.length ∧ b = r.take n ∧ r1 = r.drop n := by
  unfold ReadFull
  by_cases h : n ≤ r.length
  · simp [h, eq_comm]
  · by_cases h0 : r.length = 0
    · have hn : n ≠ 0 := by omega
      simp [h0, hn]
    · simp [h, h0]

theorem DecodeField_bytes (env : Env) (cur : List Byte) (r : Reader) :
    DecodeField env (.slice none (.uint8 none)) cur r = decodeBytes cur r
      ∧ DecodeField env (.string none) cur r
        = (match decodeBytes [] r with
          | ⟨some e, _, r1⟩ => ⟨some e, cur, r1⟩
          | ⟨none, buf, r1⟩ => ⟨none, buf, r1⟩) := by
  constructor
  · rw [DecodeField_eq_order]
    simp [primitiveFirstOrderDecode, Env.Decoder, Ty.mayHaveMethods, Ty.isDefined,
      primitiveDecode]
  · rw [DecodeField_eq_order]
    simp only [primitiveFirstOrderDecode, Env.Decoder, Ty.mayHaveMethods, Ty.isDefined,
      primitiveDecode, Option.isSome_none, Bool.false_eq_true, if_false]

theorem decodeBytes_short (cur p payload : List Byte) (hp : p.length = 4)
    (hshort : payload.length < Uint32 p) :
    decodeBytes cur (p ++ payload)
      = ⟨some (if payload = [] then .EOF else .ErrUnexpectedEOF), cur, []⟩ := by
  simp only [decodeBytes]
  rw [ReadFull_append _ _ 4 hp]
  simp only [ReadFull_short _ _ hshort]

theorem decodeBytes_exact (cur p payload rest : List Byte) (hp : p.length = 4)
    (hlen : payload.length = Uint32 p) :
    decodeBytes cur (p ++ (payload ++ rest)) = ⟨none, payload, rest⟩ := by
  simp only [decodeBytes]
  rw [ReadFull_append _ _ 4 hp]
  simp only []
  rw [ReadFull_append _ _ _ hlen]

/-- C16 (as stated, refuted). The count announces two bytes and the stream ends
right after the count: decoding into a byte sequence or a text fails with
`EOF`, the error of a read that found nothing, not with `ErrUnexpectedEOF`. -/
theorem C16_counterexample :
    Uint32 [0, 0, 0, 2] = 2
      ∧ DecodeField Env.empty (.slice none (.uint8 none)) [] ([0, 0, 0, 2] ++ [])
          = ⟨some .EOF, [], []⟩
      ∧ DecodeField Env.empty (.string none) [] ([0, 0, 0, 2] ++ []) = ⟨some .EOF, [], []⟩
      ∧ (DecodeField Env.empty (.slice none (.uint8 none)) [] ([0, 0, 0, 2] ++ [])).err
          ≠ some .ErrUnexpectedEOF := by
  refine ⟨by decide, by decide, by decide, by decide⟩

/-- C16 (amended). `DecodeField` into a byte-sequence or text variable reads the
4-byte big-endian count `N` first and then exactly `N` bytes; when the stream
holds fewer than `N` bytes after the count, decoding fails, drains the stream
and leaves the variable as it was, with `ErrUnexpectedEOF` when at least one
byte follows the count and with `EOF` when none does. -/
theorem C16_short_payload (env : Env) (cur p payload rest : List Byte)
    (hp : p.length = 4) :
    (payload.length = Uint32 p →
        DecodeField env (.slice none (.uint8 none)) cur (p ++ (payload ++ rest))
            = ⟨none, payload, rest⟩
          ∧ DecodeField env (.string none) cur (p ++ (payload ++ rest))
            = ⟨none, payload, rest⟩)
      ∧ (payload.length < Uint32 p →
        DecodeField env (.slice none (.uint8 none)) cur (p ++ payload)
            = ⟨some (if payload = [] then .EOF else .ErrUnexpectedEOF), cur, []⟩
          ∧ DecodeField env (.string none) cur (p ++ payload)
            = ⟨some (if payload = [] then .EOF else .ErrUnexpectedEOF), cur, []⟩) := by
  refine ⟨fun h => ?_, fun h => ?_⟩
  · rw [(DecodeField_bytes env cur _).1, (DecodeField_bytes env cur _).2,
      decodeBytes_exact cur p payload rest hp h, decodeBytes_exact [] p payload rest hp h]
    exact ⟨rfl, rfl⟩
  · rw [(DecodeField_bytes env cur _).1, (DecodeField_bytes env cur _).2,
      decodeBytes_short cur p payload hp h, decodeBytes_short [] p payload hp h]
    exact ⟨rfl, rfl⟩

theorem C16_short_payload_witness :
    [0, 0, 0, 3].length = 4 ∧ [7, 8, 9].length = Uint32 [0, 0, 0, 3]
      ∧ [7].length < Uint32 [0, 0, 0, 3]
      ∧ DecodeField Env.empty (.slice none (.uint8 none)) [5] ([0, 0, 0, 3] ++ ([7, 8, 9] ++ [1]))
          = ⟨none, [7, 8, 9], [1]⟩
      ∧ DecodeField Env.empty (.string none) [5] ([0, 0, 0, 3] ++ [7])
          = ⟨some .ErrUnexpectedEOF, [5], []⟩ :=
  ⟨rfl, by decide, by decide,
    ((C16_short_payload Env.empty [5] [0, 0, 0, 3] [7, 8, 9] [1] rfl).1 (by decide)).1,
    ((C16_short_payload Env.empty [5] [0, 0, 0, 3] [7] [] rfl).2 (by decide)).2⟩

/-! ## Element loops on decode -/

theorem decodeElems_length {α : Type} (dec : α → Reader → DecOut α) (zero : α) (n : Nat)
    (r : Reader) (h : (decodeElems dec zero n r).err = none) :
    (decodeElems dec zero n r).slot.length = n := by
  induction n generalizing r with
  | zero => rfl
  | succ n ih =>
    rw [decodeElems] at h ⊢
    rcases hd : dec zero r with ⟨_ | e, x, r1⟩
    · simp only [hd] at h ⊢
      simp [ih r1 h]
    · simp [hd] at h

theorem DecodeField_uint8 (env : Env) (cur : Nat) (r : Reader) :
    DecodeField env (.uint8 none) cur r
      = match r with
        | [] => ⟨some .EOF, cur, []⟩
        | b :: bs => ⟨none, b, bs⟩ := by
  rw [(DecodeField_uint env cur r).1]
  cases r <;> simp [ReadFull]

theorem decodeElems_uint8 (env : Env) (z : Nat) (n : Nat) (r : Reader) :
    decodeElems (DecodeField env (.uint8 none)) z n r
      = if n ≤ r.length then ⟨none, r.take n, r.drop n⟩ else ⟨some .EOF, r, []⟩ := by
  induction n generalizing r with
  | zero => simp [decodeElems]
  | succ n ih =>
    rw [decodeElems, DecodeField_uint8]
    cases r with
    | nil => simp
    | cons b bs =>
      simp only [ih bs, List.length_cons, Nat.add_le_add_iff_right]
      by_cases h : n ≤ bs.length <;> simp [h]

theorem DecodeField_slice_structural (env : Env) (n : Option String) (e : Ty)
    (cur : List e.denote) (r : Reader) (hb : ¬(n = none ∧ e = .uint8 none))
    (hcap : env.Decoder (.ptr (.slice n e)) = none)
    (hreg : env.wellKnownDecoders (env.canonicalizeWellKnown (.slice n e)) = none) :
    DecodeField env (.slice n e) cur r = genericSliceDecode env e cur r := by
  rw [DecodeField_eq_order, primitiveFirstOrderDecode]
  simp only [hcap]
  cases n <;> cases e <;> (try rename_i en; cases en) <;>
    simp [primitiveDecode, structuralDecode, hreg, genericSliceDecode] at hb ⊢

theorem DecodeField_array_structural (env : Env) (n : Option String) (l : Nat) (e : Ty)
    (cur : List e.denote) (r : Reader) (he : e.Kind ≠ .Uint8)
    (hcap : env.Decoder (.ptr (.array n l e)) = none)
    (hreg : env.wellKnownDecoders (env.canonicalizeWellKnown (.array n l e)) = none) :
    DecodeField env (.array n l e) cur r = genericArrayDecode env e l cur r := by
  rw [DecodeField_eq_order, primitiveFirstOrderDecode]
  simp only [hcap]
  cases e <;>
    simp [primitiveDecode, structuralDecode, hreg, genericArrayDecode, Ty.Kind] at he ⊢

theorem DecodeField_array_bytes (env : Env) (n : Option String) (l : Nat)
    (cur : List Byte) (r : Reader)
    (hcap : env.Decoder (.ptr (.array n l (.uint8 none))) = none)
    (hreg : env.wellKnownDecoders (env.canonicalizeWellKnown (.array n l (.uint8 none)))
      = none) :
    DecodeField env (.array n l (.uint8 none)) cur r
      = match ReadFull r l with
        | (.error e, r1) => ⟨some e, cur, r1⟩
        | (.ok buf, r1) => ⟨none, buf, r1⟩ := by
  rw [DecodeField_eq_order, primitiveFirstOrderDecode]
  simp only [hcap, primitiveDecode, structuralDecode, hreg]

/-! ## Replacement and atomicity on decode -/

/-- C17. Sequence decode replaces wholesale: for a sequence variable with
arbitrary previous contents (and a sequence type to which no `Decode` method
or registry entry applies), a successful `DecodeField` reads the 4-byte count
`N` and leaves the variable holding exactly the `N` elements decoded in stream
order into a fresh sequence; the whole result is the same whatever the
variable held before. -/
theorem C17_slice_replaced (env : Env) (n : Option String) (e : Ty)
    (cur cur2 : List e.denote) (r : Reader)
    (hcap : env.Decoder (.ptr (.slice n e)) = none)
    (hreg : env.wellKnownDecoders (env.canonicalizeWellKnown (.slice n e)) = none)
    (hok : (DecodeField env (.slice n e) cur r).err = none) :
    DecodeField env (.slice n e) cur2 r = DecodeField env (.slice n e) cur r
      ∧ 4 ≤ r.length
      ∧ (DecodeField env (.slice n e) cur r).slot
          = (decodeElems (DecodeField env e) e.zero (Uint32 (r.take 4)) (r.drop 4)).slot
      ∧ (DecodeField env (.slice n e) cur r).rest
          = (decodeElems (DecodeField env e) e.zero (Uint32 (r.take 4)) (r.drop 4)).rest
      ∧ (DecodeField env (.slice n e) cur r).slot.length = Uint32 (r.take 4) := by
  by_cases hb : n = none ∧ e = .uint8 none
  · obtain ⟨rfl, rfl⟩ := hb
    rw [(DecodeField_bytes env cur r).1] at hok ⊢
    rw [(DecodeField_bytes env cur2 r).1]
    simp only [decodeBytes] at hok ⊢
    rcases hrf : ReadFull r 4 with ⟨err | lenB, r1⟩
    · simp [hrf] at hok
    · obtain ⟨h4, rfl, rfl⟩ := (ReadFull_ok_iff r r1 lenB 4).1 hrf
      simp only [hrf] at hok ⊢
      rcases hrf2 : ReadFull (List.drop 4 r) (Uint32 (List.take 4 r)) with ⟨err | buf, r2⟩
      · simp [hrf2] at hok
      · obtain ⟨hN, rfl, rfl⟩ := (ReadFull_ok_iff _ r2 buf _).1 hrf2
        rw [decodeElems_uint8]
        have hN2 : Uint32 (List.take 4 r) ≤ List.length r - 4 := by
          simpa [List.length_drop] using hN
        simp [h4, hN2]
  · have h1 := DecodeField_slice_structural env n e cur r hb hcap hreg
    have h2 := DecodeField_slice_structural env n e cur2 r hb hcap hreg
    rw [h1] at hok ⊢
    rw [h2]
    simp only [genericSliceDecode] at hok ⊢
    rcases hrf : ReadFull r 4 with ⟨err | lenB, r1⟩
    · simp [hrf] at hok
    · obtain ⟨h4, rfl, rfl⟩ := (ReadFull_ok_iff r r1 lenB 4).1 hrf
      simp only [hrf] at hok ⊢
      rcases hd : decodeElems (DecodeField env e) e.zero (Uint32 (List.take 4 r)) (List.drop 4 r)
        with ⟨_ | err, vs, r2⟩
      · have hlen := decodeElems_length (DecodeField env e) e.zero _ _ (by rw [hd])
        rw [hd] at hlen
        simp [h4, hlen]
      · simp [hd] at hok

theorem C17_slice_replaced_witness :
    Env.empty.Decoder (.ptr (.slice none (.uint16 none))) = none
      ∧ Env.empty.wellKnownDecoders
          (Env.empty.canonicalizeWellKnown (.slice none (.uint16 none))) = none
      ∧ (DecodeField Env.empty (.slice none (.uint16 none)) [] [0, 0, 0, 2, 0, 1, 0, 2, 7]).err
          = none
      ∧ DecodeField Env.empty (.slice none (.uint16 none)) [9, 9, 9] [0, 0, 0, 2, 0, 1, 0, 2, 7]
          = ⟨none, [1, 2], [7]⟩ :=
  ⟨rfl, rfl, by decide,
    (C17_slice_replaced Env.empty none (.uint16 none) [] [9, 9, 9]
      [0, 0, 0, 2, 0, 1, 0, 2, 7] rfl rfl (by decide)).1⟩

/-- C18. Atomic failure of a single decode: for every variable of a built-in or
structural type (no `Decode` method on its type, and no registry entry unless
the type is built-in) and every stream on which `DecodeField` fails, the
variable holds the same value after the call as before it. -/
theorem C18_atomic_failure (env : Env) (t : Ty) (cur : t.denote) (r : Reader)
    (hcap : env.Decoder (.ptr t) = none)
    (hreg : t.isBuiltin = true ∨ env.wellKnownDecoders (env.canonicalizeWellKnown t) = none)
    (hfail : (DecodeField env t cur r).err ≠ none) :
    (DecodeField env t cur r).slot = cur := by
  rw [DecodeField_eq_order, primitiveFirstOrderDecode] at hfail ⊢
  simp only [hcap] at hfail ⊢
  have hstruct : ∀ out, structuralDecode env t cur r = some out → out.err ≠ none →
      out.slot = cur := by
    intro out hs ho
    cases t with
    | array n l e =>
      cases e <;> (try rename_i en; cases en) <;>
        simp only [structuralDecode, Option.some.injEq] at hs <;> subst hs <;>
        revert ho <;> (repeat' split) <;> simp_all
    | slice n e =>
      simp only [structuralDecode, Option.some.injEq] at hs
      subst hs
      revert ho
      split
      · simp
      · split <;> simp_all
    | _ => simp [structuralDecode] at hs
  rcases hp : primitiveDecode t cur r with _ | out
  · simp only [hp] at hfail ⊢
    have hreg2 : env.wellKnownDecoders (env.canonicalizeWellKnown t) = none := by
      rcases hreg with hb | h
      · exfalso
        cases t <;> (try rename_i n; cases n) <;> (try rename_i e; cases e) <;>
          (try rename_i en; cases en) <;>
          simp [Ty.isBuiltin, primitiveDecode] at hb hp
      · exact h
    simp only [hreg2] at hfail ⊢
    rcases hs : structuralDecode env t cur r with _ | out
    · simp [unsupportedDecode]
    · simp only [hs] at hfail ⊢
      exact hstruct out hs hfail
  · simp only [hp] at hfail ⊢
    cases t <;> (try rename_i n; cases n) <;> (try rename_i e; cases e) <;>
      (try rename_i en; cases en) <;>
      simp only [primitiveDecode, Option.some.injEq, reduceCtorEq] at hp <;> subst hp
    all_goals
      revert hfail
      try simp only [decodeBytes]
      repeat' split
    all_goals simp_all

theorem C18_atomic_failure_witness :
    Env.empty.Decoder (.ptr (.array none 2 (.uint16 none))) = none
      ∧ ((Ty.array none 2 (.uint16 none)).isBuiltin = true
          ∨ Env.empty.wellKnownDecoders
              (Env.empty.canonicalizeWellKnown (.array none 2 (.uint16 none))) = none)
      ∧ (DecodeField Env.empty (.array none 2 (.uint16 none)) [5, 6] [0, 1, 0]).err ≠ none
      ∧ (DecodeField Env.empty (.array none 2 (.uint16 none)) [5, 6] [0, 1, 0]).slot = [5, 6] :=
  ⟨rfl, Or.inr rfl, by decide,
    C18_atomic_failure Env.empty (.array none 2 (.uint16 none)) [5, 6] [0, 1, 0]
      rfl (Or.inr rfl) (by decide)⟩

/-! ## Canonical encoding -/

theorem PutUint16_Uint16 (b : List Nat) (hl : b.length = 2) (hb : ∀ x ∈ b, x < 256) :
    PutUint16 (Uint16 b) = b := by
  match b, hl, hb with
  | [b0, b1], _, hb =>
    have h0 := hb b0 (by simp)
    have h1 := hb b1 (by simp)
    have e0 : (b0 * 2 ^ 8 + b1) % 2 ^ 16 / 2 ^ 8 % 256 = b0 := by omega
    have e1 : (b0 * 2 ^ 8 + b1) % 2 ^ 16 % 256 = b1 := by omega
    show [(b0 * 2 ^ 8 + b1) % 2 ^ 16 / 2 ^ 8 % 256, (b0 * 2 ^ 8 + b1) % 2 ^ 16 % 256] = [b0, b1]
    rw [e0, e1]

theorem PutUint32_Uint32 (b : List Nat) (hl : b.length = 4) (hb : ∀ x ∈ b, x < 256) :
    PutUint32 (Uint32 b) = b := by
  match b, hl, hb with
  | [b0, b1, b2, b3], _, hb =>
    have h0 := hb b0 (by simp)
    have h1 := hb b1 (by simp)
    have h2 := hb b2 (by simp)
    have h3 := hb b3 (by simp)
    have hv : Uint32 [b0, b1, b2, b3] = b0 * 2 ^ 24 + b1 * 2 ^ 16 + b2 * 2 ^ 8 + b3 := by
      show (b0 * 2 ^ 24 + b1 * 2 ^ 16 + b2 * 2 ^ 8 + b3) % 2 ^ 32
        = b0 * 2 ^ 24 + b1 * 2 ^ 16 + b2 * 2 ^ 8 + b3
      omega
    rw [hv]
    have e0 : (b0 * 2 ^ 24 + b1 * 2 ^ 16 + b2 * 2 ^ 8 + b3) / 2 ^ 24 % 256 = b0 := by omega
    have e1 : (b0 * 2 ^ 24 + b1 * 2 ^ 16 + b2 * 2 ^ 8 + b3) / 2 ^ 16 % 256 = b1 := by omega
    have e2 : (b0 * 2 ^ 24 + b1 * 2 ^ 16 + b2 * 2 ^ 8 + b3) / 2 ^ 8 % 256 = b2 := by omega
    have e3 : (b0 * 2 ^ 24 + b1 * 2 ^ 16 + b2 * 2 ^ 8 + b3) % 256 = b3 := by omega
    show [(b0 * 2 ^ 24 + b1 * 2 ^ 16 + b2 * 2 ^ 8 + b3) / 2 ^ 24 % 256,
      (b0 * 2 ^ 24 + b1 * 2 ^ 16 + b2 * 2 ^ 8 + b3) / 2 ^ 16 % 256,
      (b0 * 2 ^ 24 + b1 * 2 ^ 16 + b2 * 2 ^ 8 + b3) / 2 ^ 8 % 256,
      (b0 * 2 ^ 24 + b1 * 2 ^ 16 + b2 * 2 ^ 8 + b3) % 256] = [b0, b1, b2, b3]
    rw [e0, e1, e2, e3]

theorem PutUint64_Uint64 (b : List Nat) (hl : b.length = 8) (hb : ∀ x ∈ b, x < 256) :
    PutUint64 (Uint64 b) = b := by
  match b, hl, hb with
  | [b0, b1, b2, b3, b4, b5, b6, b7], _, hb =>
    have h0 := hb b0 (by simp)
    have h1 := hb b1 (by simp)
    have h2 := hb b2 (by simp)
    have h3 := hb b3 (by simp)
    have h4 := hb b4 (by simp)
    have h5 := hb b5 (by simp)
    have h6 := hb b6 (by simp)
    have h7 := hb b7 (by simp)
    obtain ⟨v, hv⟩ : ∃ v, v = b0 * 2 ^ 56 + b1 * 2 ^ 48 + b2 * 2 ^ 40 + b3 * 2 ^ 32
        + b4 * 2 ^ 24 + b5 * 2 ^ 16 + b6 * 2 ^ 8 + b7 := ⟨_, rfl⟩
    have hU : Uint64 [b0, b1, b2, b3, b4, b5, b6, b7] = v := by
      show (b0 * 2 ^ 56 + b1 * 2 ^ 48 + b2 * 2 ^ 40 + b3 * 2 ^ 32
        + b4 * 2 ^ 24 + b5 * 2 ^ 16 + b6 * 2 ^ 8 + b7) % 2 ^ 64 = v
      omega
    rw [hU]
    have e0 : v / 2 ^ 56 % 256 = b0 := by omega
    have e1 : v / 2 ^ 48 % 256 = b1 := by omega
    have e2 : v / 2 ^ 40 % 256 = b2 := by omega
    have e3 : v / 2 ^ 32 % 256 = b3 := by omega
    have e4 : v / 2 ^ 24 % 256 = b4 := by omega
    have e5 : v / 2 ^ 16 % 256 = b5 := by omega
    have e6 : v / 2 ^ 8 % 256 = b6 := by omega
    have e7 : v % 256 = b7 := by omega
    show [v / 2 ^ 56 % 256, v / 2 ^ 48 % 256, v / 2 ^ 40 % 256, v / 2 ^ 32 % 256,
      v / 2 ^ 24 % 256, v / 2 ^ 16 % 256, v / 2 ^ 8 % 256, v % 256]
      = [b0, b1, b2, b3, b4, b5, b6, b7]
    rw [e0, e1, e2, e3, e4, e5, e6, e7]

theorem Uint32_lt (b : List Byte) : Uint32 b < 2 ^ 32 := Nat.mod_lt _ (by norm_num)

theorem canonical_elems {α : Type} (enc : α → EncOut) (dec : α → Reader → DecOut α) (zero : α)
    (P : ∀ (r : List Nat) v rest, (∀ b ∈ r, b < 256) → dec zero r = ⟨none, v, rest⟩ →
      r = (enc v).written ++ rest ∧ (enc v).err = none) :
    ∀ (n : Nat) (r : List Nat) vs rest, (∀ b ∈ r, b < 256) →
      decodeElems dec zero n r = ⟨none, vs, rest⟩ →
      r = (encodeElems enc vs).written ++ rest ∧ (encodeElems enc vs).err = none
        ∧ vs.length = n := by
  intro n
  induction n with
  | zero =>
    intro r vs rest _ h
    simp only [decodeElems, DecOut.mk.injEq, true_and] at h
    obtain ⟨rfl, rfl⟩ := h
    simp [encodeElems]
  | succ n ih =>
    intro r vs rest hr h
    rw [decodeElems] at h
    rcases hd : dec zero r with ⟨_ | e, x, r1⟩
    · simp only [hd] at h
      rcases hl : decodeElems dec zero n r1 with ⟨e2, xs, r2⟩
      simp only [hl, DecOut.mk.injEq] at h
      obtain ⟨rfl, rfl, rfl⟩ := h
      obtain ⟨hx1, hx2⟩ := P r x r1 hr hd
      have hr1 : ∀ b ∈ r1, b < 256 := fun b hb => hr b (by rw [hx1]; simp [hb])
      obtain ⟨i1, i2, i3⟩ := ih r1 xs r2 hr1 hl
      refine ⟨?_, ?_, by simp [i3]⟩
      · rw [encodeElems, andThen_ok _ _ hx2]
        simp only [List.append_assoc]
        rw [← i1, ← hx1]
      · rw [encodeElems, andThen_ok _ _ hx2]
        exact i2
    · simp [hd] at h

theorem take_bytes (r : List Nat) (n : Nat) (hr : ∀ b ∈ r, b < 256) :
    ∀ b ∈ r.take n, b < 256 := fun b hb => hr b (List.mem_of_mem_take hb)

theorem canonical_uint (env : Env) (cur : Nat) (r : List Nat) (v : Nat) (rest : List Nat)
    (hr : ∀ b ∈ r, b < 256) :
    (DecodeField env (.uint8 none) cur r = ⟨none, v, rest⟩ →
        r = (EncodeField env (.uint8 none) v).written ++ rest
          ∧ (EncodeField env (.uint8 none) v).err = none)
      ∧ (DecodeField env (.uint16 none) cur r = ⟨none, v, rest⟩ →
        r = (EncodeField env (.uint16 none) v).written ++ rest
          ∧ (EncodeField env (.uint16 none) v).err = none)
      ∧ (DecodeField env (.uint32 none) cur r = ⟨none, v, rest⟩ →
        r = (EncodeField env (.uint32 none) v).written ++ rest
          ∧ (EncodeField env (.uint32 none) v).err = none)
      ∧ (DecodeField env (.uint64 none) cur r = ⟨none, v, rest⟩ →
        r = (EncodeField env (.uint64 none) v).written ++ rest
          ∧ (EncodeField env (.uint64 none) v).err = none) := by
  obtain ⟨e8, e16, e32, e64⟩ := EncodeField_uint env v
  obtain ⟨d8, d16, d32, d64⟩ := DecodeField_uint env cur r
  refine ⟨fun h => ?_, fun h => ?_, fun h => ?_, fun h => ?_⟩
  · rw [DecodeField_uint8] at h
    rw [e8]
    cases r with
    | nil => simp at h
    | cons b bs =>
      simp only [DecOut.mk.injEq, true_and] at h
      obtain ⟨rfl, rfl⟩ := h
      simp [Write]
  · rw [d16] at h
    rw [e16]
    rcases hrf : ReadFull r 2 with ⟨err | b, r1⟩
    · simp [hrf] at h
    · obtain ⟨h4, rfl, rfl⟩ := (ReadFull_ok_iff r r1 b 2).1 hrf
      simp only [hrf, DecOut.mk.injEq, true_and] at h
      obtain ⟨rfl, rfl⟩ := h
      have := PutUint16_Uint16 (r.take 2) (by simp [h4]) (take_bytes r 2 hr)
      simp [Write, this]
  · rw [d32] at h
    rw [e32]
    rcases hrf : ReadFull r 4 with ⟨err | b, r1⟩
    · simp [hrf] at h
    · obtain ⟨h4, rfl, rfl⟩ := (ReadFull_ok_iff r r1 b 4).1 hrf
      simp only [hrf, DecOut.mk.injEq, true_and] at h
      obtain ⟨rfl, rfl⟩ := h
      have := PutUint32_Uint32 (r.take 4) (by simp [h4]) (take_bytes r 4 hr)
      simp [Write, this]
  · rw [d64] at h
    rw [e64]
    rcases hrf : ReadFull r 8 with ⟨err | b, r1⟩
    · simp [hrf] at h
    · obtain ⟨h4, rfl, rfl⟩ := (ReadFull_ok_iff r r1 b 8).1 hrf
      simp only [hrf, DecOut.mk.injEq, true_and] at h
      obtain ⟨rfl, rfl⟩ := h
      have := PutUint64_Uint64 (r.take 8) (by simp [h4]) (take_bytes r 8 hr)
      simp [Write, this]

theorem canonical_decodeBytes (cur : List Byte) (r : List Nat) (v rest : List Nat)
    (hr : ∀ b ∈ r, b < 256) (h : decodeBytes cur r = ⟨none, v, rest⟩) :
    r = (encodeBytes v).written ++ rest ∧ (encodeBytes v).err = none := by
  simp only [decodeBytes] at h
  rcases hrf : ReadFull r 4 with ⟨err | lenB, r1⟩
  · simp [hrf] at h
  · obtain ⟨h4, rfl, rfl⟩ := (ReadFull_ok_iff r r1 lenB 4).1 hrf
    simp only [hrf] at h
    rcases hrf2 : ReadFull (List.drop 4 r) (Uint32 (List.take 4 r)) with ⟨err | buf, r2⟩
    · simp [hrf2] at h
    · obtain ⟨hN, rfl, rfl⟩ := (ReadFull_ok_iff _ r2 buf _).1 hrf2
      simp only [hrf2, DecOut.mk.injEq, true_and] at h
      obtain ⟨rfl, rfl⟩ := h
      have hlt := Uint32_lt (List.take 4 r)
      have hlen : (List.take (Uint32 (List.take 4 r)) (List.drop 4 r)).length
          = Uint32 (List.take 4 r) := by
        rw [List.length_take]; exact Nat.min_eq_left hN
      have hmax : ¬ MaxUint32 < Uint32 (List.take 4 r) := by
        simp only [MaxUint32]; omega
      have hput := PutUint32_Uint32 (r.take 4) (by simp [h4]) (take_bytes r 4 hr)
      have hw : encodeBytes (List.take (Uint32 (List.take 4 r)) (List.drop 4 r))
          = ⟨List.take 4 r ++ List.take (Uint32 (List.take 4 r)) (List.drop 4 r), none⟩ := by
        simp only [encodeBytes, hlen, gt_iff_lt, hmax, if_false, Write, EncOut.andThen, hput]
      rw [hw]
      refine ⟨?_, rfl⟩
      show r = (List.take 4 r ++ List.take (Uint32 (List.take 4 r)) (List.drop 4 r))
        ++ List.drop (Uint32 (List.take 4 r)) (List.drop 4 r)
      rw [List.append_assoc, List.take_append_drop, List.take_append_drop]

theorem canonical_array (env : Env) (n : Option String) (l : Nat) (e : Ty)
    (hf : env.free (.array n l e) = true) (hs : Structural env e = true)
    (ih : ∀ (cur : e.denote) (r : List Nat) (v : e.denote) (rest : List Nat),
      (∀ b ∈ r, b < 256) → DecodeField env e cur r = ⟨none, v, rest⟩ →
      r = (EncodeField env e v).written ++ rest ∧ (EncodeField env e v).err = none)
    (cur : List e.denote) (r : List Nat) (v : List e.denote) (rest : List Nat)
    (hr : ∀ b ∈ r, b < 256)
    (h : DecodeField env (.array n l e) cur r = ⟨none, v, rest⟩) :
    r = (EncodeField env (.array n l e) v).written ++ rest
      ∧ (EncodeField env (.array n l e) v).err = none := by
  obtain ⟨h1, h2, h3, h4⟩ := (free_iff env _).1 hf
  by_cases he : e.Kind = .Uint8
  · cases e <;> simp [Ty.Kind] at he
    rename_i en
    cases en with
    | some nm => simp [Structural] at hs
    | none =>
      rw [DecodeField_array_bytes env n l cur r h2 h4] at h
      rw [EncodeField_array_bytes env n l none v h1 h3]
      rcases hrf : ReadFull r l with ⟨err | buf, r1⟩
      · simp [hrf] at h
      · obtain ⟨hl, rfl, rfl⟩ := (ReadFull_ok_iff r r1 buf l).1 hrf
        simp only [hrf, DecOut.mk.injEq, true_and] at h
        obtain ⟨rfl, rfl⟩ := h
        simp
  · rw [DecodeField_array_structural env n l e cur r he h2 h4] at h
    rw [EncodeField_array_structural env n l e v he h1 h3]
    simp only [genericArrayDecode] at h
    rcases hd : decodeElems (DecodeField env e) e.zero l r with ⟨_ | err, vs, r2⟩
    · simp only [hd, DecOut.mk.injEq, true_and] at h
      obtain ⟨rfl, rfl⟩ := h
      obtain ⟨c1, c2, _⟩ := canonical_elems (EncodeField env e) (DecodeField env e) e.zero
        (fun r v rest hr hd => ih e.zero r v rest hr hd) l r vs r2 hr hd
      exact ⟨c1, c2⟩
    · simp [hd] at h

theorem canonical_slice (env : Env) (n : Option String) (e : Ty)
    (hb : ¬(n = none ∧ e = .uint8 none))
    (hf : env.free (.slice n e) = true)
    (ih : ∀ (cur : e.denote) (r : List Nat) (v : e.denote) (rest : List Nat),
      (∀ b ∈ r, b < 256) → DecodeField env e cur r = ⟨none, v, rest⟩ →
      r = (EncodeField env e v).written ++ rest ∧ (EncodeField env e v).err = none)
    (cur : List e.denote) (r : List Nat) (v : List e.denote) (rest : List Nat)
    (hr : ∀ b ∈ r, b < 256)
    (h : DecodeField env (.slice n e) cur r = ⟨none, v, rest⟩) :
    r = (EncodeField env (.slice n e) v).written ++ rest
      ∧ (EncodeField env (.slice n e) v).err = none := by
  obtain ⟨h1, h2, h3, h4⟩ := (free_iff env _).1 hf
  rw [DecodeField_slice_structural env n e cur r hb h2 h4] at h
  rw [EncodeField_slice_structural env n e v hb h1 h3]
  simp only [genericSliceDecode] at h
  rcases hrf : ReadFull r 4 with ⟨err | lenB, r1⟩
  · simp [hrf] at h
  · obtain ⟨hl4, rfl, rfl⟩ := (ReadFull_ok_iff r r1 lenB 4).1 hrf
    simp only [hrf] at h
    rcases hd : decodeElems (DecodeField env e) e.zero (Uint32 (List.take 4 r)) (List.drop 4 r)
      with ⟨_ | err, vs, r2⟩
    · simp only [hd, DecOut.mk.injEq, true_and] at h
      obtain ⟨rfl, rfl⟩ := h
      have hr1 : ∀ b ∈ List.drop 4 r, b < 256 := fun b hb => hr b (List.mem_of_mem_drop hb)
      obtain ⟨c1, c2, c3⟩ := canonical_elems (EncodeField env e) (DecodeField env e) e.zero
        (fun r v rest hr hd => ih e.zero r v rest hr hd) _ _ vs r2 hr1 hd
      have hlt := Uint32_lt (List.take 4 r)
      have hmax : ¬ vs.length > MaxUint32 := by
        rw [c3]; simp only [MaxUint32]; omega
      have hput := PutUint32_Uint32 (r.take 4) (by simp [hl4]) (take_bytes r 4 hr)
      rw [if_neg hmax, c3, hput]
      refine ⟨?_, ?_⟩
      · show r = (List.take 4 r ++ (encodeElems (EncodeField env e) vs).written) ++ r2
        rw [List.append_assoc, ← c1, List.take_append_drop]
      · simpa [Write, EncOut.andThen] using c2
    · simp [hd] at h

theorem canonical_core (env : Env) :
    ∀ (t : Ty), Structural env t = true →
      ∀ (cur : t.denote) (r : List Nat) (v : t.denote) (rest : List Nat),
        (∀ b ∈ r, b < 256) → DecodeField env t cur r = ⟨none, v, rest⟩ →
        r = (EncodeField env t v).written ++ rest ∧ (EncodeField env t v).err = none := by
  intro t
  induction t with
  | bool n =>
    intro hs cur r v rest _ h
    cases n with
    | some nm => simp [Structural] at hs
    | none =>
      rw [DecodeField_eq_order] at h
      rw [EncodeField_eq_order]
      simp only [primitiveFirstOrderDecode, primitiveFirstOrderEncode, Env.Decoder, Env.Encoder,
        Ty.mayHaveMethods, Ty.isDefined, Option.isSome_none, Bool.false_eq_true, if_false,
        primitiveDecode, primitiveEncode] at h ⊢
      cases r with
      | nil => simp [ReadFull] at h
      | cons b bs =>
        simp only [ReadFull, List.length_cons, Nat.le_add_left, if_true, List.take_succ_cons,
          List.take_zero, List.drop_succ_cons, List.drop_zero, List.getD_cons_zero] at h
        by_cases h0 : b = 0
        · simp only [h0, if_true, DecOut.mk.injEq, true_and] at h
          obtain ⟨rfl, rfl⟩ := h
          simp [Write, falseWire, h0]
        · by_cases h1 : b = 1
          · simp [h1] at h
            obtain ⟨rfl, rfl⟩ := h
            simp [Write, trueWire, h1]
          · simp [h0, h1] at h
  | uint8 n =>
    intro hs cur r v rest hr h
    cases n with
    | some nm => simp [Structural] at hs
    | none => exact (canonical_uint env cur r v rest hr).1 h
  | uint16 n =>
    intro hs cur r v rest hr h
    cases n with
    | some nm => simp [Structural] at hs
    | none => exact (canonical_uint env cur r v rest hr).2.1 h
  | uint32 n =>
    intro hs cur r v rest hr h
    cases n with
    | some nm => simp [Structural] at hs
    | none => exact (canonical_uint env cur r v rest hr).2.2.1 h
  | uint64 n =>
    intro hs cur r v rest hr h
    cases n with
    | some nm => simp [Structural] at hs
    | none => exact (canonical_uint env cur r v rest hr).2.2.2 h
  | string n =>
    intro hs cur r v rest hr h
    cases n with
    | some nm => simp [Structural] at hs
    | none =>
      rw [(DecodeField_bytes env cur r).2] at h
      rw [(EncodeField_bytes env v).2]
      rcases hdb : decodeBytes [] r with ⟨_ | err, buf, r1⟩
      · simp only [hdb, DecOut.mk.injEq, true_and] at h
        obtain ⟨rfl, rfl⟩ := h
        exact canonical_decodeBytes [] r buf r1 hr hdb
      · simp [hdb] at h
  | array n l e ih =>
    intro hs cur r v rest hr h
    simp only [Structural, Bool.and_eq_true] at hs
    exact canonical_array env n l e hs.1 hs.2 (ih hs.2) cur r v rest hr h
  | slice n e ih =>
    intro hs cur r v rest hr h
    by_cases hb : n = none ∧ e = .uint8 none
    · obtain ⟨rfl, rfl⟩ := hb
      rw [(DecodeField_bytes env cur r).1] at h
      rw [(EncodeField_bytes env v).1]
      exact canonical_decodeBytes cur r v rest hr h
    · have hs2 : env.free (.slice n e) = true ∧ Structural env e = true := by
        rw [Structural] at hs
        · simpa using hs
        · intro hn he; exact hb ⟨hn, he⟩
      exact canonical_slice env n e hb hs2.1 (ih hs2.2) cur r v rest hr h
  | ptr u _ => intro hs; simp [Structural] at hs
  | struct nm => intro hs; simp [Structural] at hs

/-- C19. Canonical encoding: for every built-in or structural type and every
stream of bytes on which `DecodeField` succeeds with value `v`, `EncodeField`
of `v` succeeds and writes exactly the bytes that were consumed; hence two
streams that decode to the same value were consumed over the same byte string,
the encoding of that value. -/
theorem C19_canonical_encoding (env : Env) (t : Ty) (cur cur2 v : t.denote)
    (r rest r2 rest2 : List Nat)
    (hs : Structural env t = true)
    (hr : ∀ b ∈ r, b < 256) (hr2 : ∀ b ∈ r2, b < 256)
    (h : DecodeField env t cur r = ⟨none, v, rest⟩)
    (h2 : DecodeField env t cur2 r2 = ⟨none, v, rest2⟩) :
    (EncodeField env t v).err = none
      ∧ r = (EncodeField env t v).written ++ rest
      ∧ (EncodeField env t v).written = r.take (r.length - rest.length)
      ∧ r2 = (EncodeField env t v).written ++ rest2 := by
  obtain ⟨a1, a2⟩ := canonical_core env t hs cur r v rest hr h
  obtain ⟨b1, _⟩ := canonical_core env t hs cur2 r2 v rest2 hr2 h2
  refine ⟨a2, a1, ?_, b1⟩
  have hl : r.length - rest.length = (EncodeField env t v).written.length := by
    rw [congrArg List.length a1, List.length_append]
    omega
  rw [hl]
  conv_rhs => rw [a1]
  simp

theorem C19_canonical_encoding_witness :
    Structural Env.empty (.slice none (.uint16 none)) = true
      ∧ (∀ b ∈ [0, 0, 0, 1, 0, 5, 9], b < 256) ∧ (∀ b ∈ [0, 0, 0, 1, 0, 5], b < 256)
      ∧ DecodeField Env.empty (.slice none (.uint16 none)) [] [0, 0, 0, 1, 0, 5, 9]
          = ⟨none, [5], [9]⟩
      ∧ DecodeField Env.empty (.slice none (.uint16 none)) [3] [0, 0, 0, 1, 0, 5]
          = ⟨none, [5], []⟩
      ∧ (EncodeField Env.empty (.slice none (.uint16 none)) [5]).err = none
      ∧ [0, 0, 0, 1, 0, 5, 9]
          = (EncodeField Env.empty (.slice none (.uint16 none)) [5]).written ++ [9] :=
  have h := C19_canonical_encoding Env.empty (.slice none (.uint16 none)) [] [3] [5]
    [0, 0, 0, 1, 0, 5, 9] [9] [0, 0, 0, 1, 0, 5] [] rfl (by decide) (by decide) rfl rfl
  ⟨rfl, by decide, by decide, rfl, rfl, h.1, h.2.1⟩

/-! ## Special cases and general rules -/

theorem encodeElems_uint8 (env : Env) (bs : List Nat) :
    encodeElems (EncodeField env (.uint8 none)) bs = ⟨bs, none⟩ := by
  have h := encodeElems_ok (EncodeField env (.uint8 none)) bs
    (fun x _ => by rw [(EncodeField_uint env x).1]; rfl)
  rw [h]
  have hel : (fun x => (EncodeField env (.uint8 none) x).written) = fun x => [x] := by
    funext x
    rw [(EncodeField_uint env x).1]
    rfl
  rw [hel, flatten_map_singleton]

theorem DecOut_ext {α : Type} (a b : DecOut α) (h1 : a.err = b.err) (h2 : a.slot = b.slot)
    (h3 : a.rest = b.rest) : a = b := by
  cases a; cases b; simp_all

theorem bytes_agree_slice (env : Env) (cur : List Nat) (r : Reader) :
    (decodeBytes cur r).slot = (genericSliceDecode env (.uint8 none) cur r).slot
      ∧ (decodeBytes cur r).rest = (genericSliceDecode env (.uint8 none) cur r).rest
      ∧ ((decodeBytes cur r).err = none
          ↔ (genericSliceDecode env (.uint8 none) cur r).err = none) := by
  simp only [decodeBytes, genericSliceDecode, decodeElems_uint8]
  rcases hrf : ReadFull r 4 with ⟨err | lenB, r1⟩
  · simp
  · simp only []
    by_cases hN : Uint32 lenB ≤ r1.length
    · have h2 : ReadFull r1 (Uint32 lenB) = (.ok (r1.take (Uint32 lenB)), r1.drop (Uint32 lenB)) :=
        (ReadFull_ok_iff _ _ _ _).2 ⟨hN, rfl, rfl⟩
      simp [h2, hN]
    · simp [ReadFull_short r1 _ (Nat.lt_of_not_le hN), hN]

theorem bytes_agree_array (env : Env) (l : Nat) (cur : List Nat) (r : Reader) :
    let special : DecOut (List Nat) :=
      match ReadFull r l with
      | (.error e, r1) => ⟨some e, cur, r1⟩
      | (.ok buf, r1) => ⟨none, buf, r1⟩
    special.slot = (genericArrayDecode env (.uint8 none) l cur r).slot
      ∧ special.rest = (genericArrayDecode env (.uint8 none) l cur r).rest
      ∧ (special.err = none ↔ (genericArrayDecode env (.uint8 none) l cur r).err = none) := by
  simp only [genericArrayDecode, decodeElems_uint8]
  by_cases hN : l ≤ r.length
  · have h2 : ReadFull r l = (.ok (r.take l), r.drop l) :=
      (ReadFull_ok_iff _ _ _ _).2 ⟨hN, rfl, rfl⟩
    simp [h2, hN]
  · simp [ReadFull_short r _ (Nat.lt_of_not_le hN), hN]

/-- On a stream that ends inside the payload the two decode paths fail with
different error values: the built-in byte-sequence case returns
`ErrUnexpectedEOF` from its single read, the general sequence rule returns the
`EOF` of the element read that found nothing. -/
theorem truncated_payload_errors :
    DecodeField Env.empty (.slice none (.uint8 none)) [] [0, 0, 0, 2, 5]
        = ⟨some .ErrUnexpectedEOF, [], []⟩
      ∧ genericSliceDecode Env.empty (.uint8 none) [] [0, 0, 0, 2, 5] = ⟨some .EOF, [], []⟩
      ∧ DecodeField Env.empty (.slice (some "Blob") (.uint8 none)) [] [0, 0, 0, 2, 5]
        = ⟨some .EOF, [], []⟩ := by
  refine ⟨by decide, by decide, by decide⟩

/-- C20. Special cases agree with the general rules: for every byte sequence of
length at most `MaxUint32` the built-in byte-sequence case writes the same
bytes as the general sequence rule applied to the bytes as `uint8` elements,
and for every array of plain bytes the raw-bytes case writes the same bytes as
the general element-by-element array rule; decoding such an encoding, the two
decode paths return the same result; and on every stream the two decode paths
leave the same bytes unread and the same contents in the variable, and one
succeeds exactly when the other does. -/
theorem C20_special_cases_agree (env : Env) (bs cur : List Nat) (n : Option String) (l : Nat)
    (r rest : Reader)
    (hlen : bs.length ≤ MaxUint32) (hl : bs.length = l)
    (hcapE : env.Encoder (.array n l (.uint8 none)) = none)
    (hregE : env.wellKnownEncoders (env.canonicalizeWellKnown (.array n l (.uint8 none)))
      = none)
    (hcapD : env.Decoder (.ptr (.array n l (.uint8 none))) = none)
    (hregD : env.wellKnownDecoders (env.canonicalizeWellKnown (.array n l (.uint8 none)))
      = none) :
    EncodeField env (.slice none (.uint8 none)) bs = genericSliceEncode env (.uint8 none) bs
      ∧ EncodeField env (.array n l (.uint8 none)) bs = genericArrayEncode env (.uint8 none) bs
      ∧ DecodeField env (.slice none (.uint8 none)) cur
            ((EncodeField env (.slice none (.uint8 none)) bs).written ++ rest)
          = ⟨none, bs, rest⟩
      ∧ genericSliceDecode env (.uint8 none) cur
            ((EncodeField env (.slice none (.uint8 none)) bs).written ++ rest)
          = ⟨none, bs, rest⟩
      ∧ DecodeField env (.array n l (.uint8 none)) cur
            ((EncodeField env (.array n l (.uint8 none)) bs).written ++ rest)
          = ⟨none, bs, rest⟩
      ∧ genericArrayDecode env (.uint8 none) l cur
            ((EncodeField env (.array n l (.uint8 none)) bs).written ++ rest)
          = ⟨none, bs, rest⟩
      ∧ ((DecodeField env (.slice none (.uint8 none)) cur r).slot
            = (genericSliceDecode env (.uint8 none) cur r).slot
          ∧ (DecodeField env (.slice none (.uint8 none)) cur r).rest
            = (genericSliceDecode env (.uint8 none) cur r).rest
          ∧ ((DecodeField env (.slice none (.uint8 none)) cur r).err = none
            ↔ (genericSliceDecode env (.uint8 none) cur r).err = none))
      ∧ ((DecodeField env (.array n l (.uint8 none)) cur r).slot
            = (genericArrayDecode env (.uint8 none) l cur r).slot
          ∧ (DecodeField env (.array n l (.uint8 none)) cur r).rest
            = (genericArrayDecode env (.uint8 none) l cur r).rest
          ∧ ((DecodeField env (.array n l (.uint8 none)) cur r).err = none
            ↔ (genericArrayDecode env (.uint8 none) l cur r).err = none)) := by
  have hlt : bs.length < 2 ^ 32 := by simp only [MaxUint32] at hlen; omega
  have hEB : EncodeField env (.slice none (.uint8 none)) bs = ⟨PutUint32 bs.length ++ bs, none⟩ := by
    rw [(EncodeField_bytes env bs).1]
    simp [encodeBytes, Nat.not_lt.2 hlen, Write, EncOut.andThen]
  have hEA := EncodeField_array_bytes env n l none bs hcapE hregE
  have hDB : ∀ c s, DecodeField env (.slice none (.uint8 none)) c s = decodeBytes c s :=
    fun c s => (DecodeField_bytes env c s).1
  have hDA := fun s => DecodeField_array_bytes env n l cur s hcapD hregD
  have agS := fun s => bytes_agree_slice env cur s
  have agA := fun s => bytes_agree_array env l cur s
  have okS : decodeBytes cur ((PutUint32 bs.length ++ bs) ++ rest) = ⟨none, bs, rest⟩ := by
    rw [List.append_assoc]
    exact decodeBytes_exact cur (PutUint32 bs.length) bs rest rfl
      (Uint32_PutUint32 _ hlt).symm
  have okA : (match ReadFull (bs ++ rest) l with
      | (.error e, r1) => (⟨some e, cur, r1⟩ : DecOut (List Nat))
      | (.ok buf, r1) => ⟨none, buf, r1⟩) = ⟨none, bs, rest⟩ := by
    rw [ReadFull_append _ _ _ hl]
  refine ⟨?_, ?_, ?_, ?_, ?_, ?_, ?_, ?_⟩
  · rw [hEB]
    simp [genericSliceEncode, Nat.not_lt.2 hlen, encodeElems_uint8, Write, EncOut.andThen]
  · rw [hEA, genericArrayEncode, encodeElems_uint8]
  · rw [hEB, hDB, okS]
  · rw [hEB]
    obtain ⟨a1, a2, a3⟩ := agS ((PutUint32 bs.length ++ bs) ++ rest)
    rw [okS] at a1 a2 a3
    exact DecOut_ext _ _ (a3.1 rfl) a1.symm a2.symm
  · rw [hEA, hDA]
    exact okA
  · rw [hEA]
    obtain ⟨a1, a2, a3⟩ := agA (bs ++ rest)
    simp only [okA] at a1 a2 a3
    exact DecOut_ext _ _ (a3.1 trivial) a1.symm a2.symm
  · rw [hDB]
    exact agS r
  · rw [hDA]
    exact agA r

theorem C20_special_cases_agree_witness :
    [1, 2].length ≤ MaxUint32 ∧ [1, 2].length = 2
      ∧ Env.empty.Encoder (.array none 2 (.uint8 none)) = none
      ∧ Env.empty.wellKnownEncoders
          (Env.empty.canonicalizeWellKnown (.array none 2 (.uint8 none))) = none
      ∧ Env.empty.Decoder (.ptr (.array none 2 (.uint8 none))) = none
      ∧ Env.empty.wellKnownDecoders
          (Env.empty.canonicalizeWellKnown (.array none 2 (.uint8 none))) = none
      ∧ EncodeField Env.empty (.slice none (.uint8 none)) [1, 2]
          = genericSliceEncode Env.empty (.uint8 none) [1, 2]
      ∧ EncodeField Env.empty (.array none 2 (.uint8 none)) [1, 2]
          = genericArrayEncode Env.empty (.uint8 none) [1, 2]
      ∧ genericSliceDecode Env.empty (.uint8 none) [7]
            ((EncodeField Env.empty (.slice none (.uint8 none)) [1, 2]).written ++ [9])
          = ⟨none, [1, 2], [9]⟩
      ∧ genericArrayDecode Env.empty (.uint8 none) 2 [7]
            ((EncodeField Env.empty (.array none 2 (.uint8 none)) [1, 2]).written ++ [9])
          = ⟨none, [1, 2], [9]⟩ :=
  have h := C20_special_cases_agree Env.empty [1, 2] [7] none 2 [0, 0, 0, 2, 5] [9]
    (by decide) rfl rfl rfl rfl rfl
  ⟨by decide, rfl, rfl, rfl, rfl, rfl, h.1, h.2.1, h.2.2.2.1, h.2.2.2.2.2.1⟩

end Mstream
